import Mathlib

/-!
Verification of the xmorph repository (a Go wrapper around the libmorph
image-warping library) against its natural-language specification.

The Go sources are embedded shallowly:

* `float64` coordinates are idealized as rational numbers (`ℚ`).
  Because the library rational operations of this Lean version do not
  reduce inside the kernel, the embedding uses its own executable
  operations `qadd`, `qsub`, `qmul`, `qdiv`, ... built on `mkRat`;
  the lemmas `qadd_eq`, `qsub_eq`, ... prove that they agree with the
  field operations of `ℚ`, so all value-level reasoning happens with the
  ordinary arithmetic of `ℚ`.
* A mesh is a record of its dimensions together with its points and
  labels, stored as rows (the C library stores the same data as flat
  row-major arrays of doubles plus the dimensions).
* Fallible Go functions returning `error` become `Except String`;
  functions that can panic return a dedicated result type.
* Functions of the underlying C library (libmorph) are not part of the
  repository; they are modelled from the specification and marked
  `Modelled from the spec:` in their doc comments.
-/

namespace XmorphProof

/-! ## Executable rational arithmetic

`Rat.add` and friends are `@[irreducible]` in this toolchain, so terms
built from them cannot be evaluated by `decide`.  The operations below
compute the same values through `mkRat`, which does reduce. -/

/-- Executable addition on `ℚ` (same value as `+`). -/
def qadd (a b : ℚ) : ℚ := mkRat (a.num * b.den + b.num * a.den) (a.den * b.den)

/-- Executable negation on `ℚ` (same value as `-·`). -/
def qneg (a : ℚ) : ℚ := mkRat (-a.num) a.den

/-- Executable subtraction on `ℚ` (same value as `-`). -/
def qsub (a b : ℚ) : ℚ := qadd a (qneg b)

/-- Executable multiplication on `ℚ` (same value as `*`). -/
def qmul (a b : ℚ) : ℚ := mkRat (a.num * b.num) (a.den * b.den)

/-- Executable division on `ℚ` (same value as `/`, with `q / 0 = 0`). -/
def qdiv (a b : ℚ) : ℚ :=
  if 0 ≤ b.num then mkRat (a.num * b.den) (a.den * b.num.toNat)
  else mkRat (-(a.num * b.den)) (a.den * (-b.num).toNat)

/-- Executable embedding of an integer into `ℚ`. -/
def qofInt (i : ℤ) : ℚ := mkRat i 1

/-- Executable embedding of a natural number into `ℚ`. -/
def qofNat (n : ℕ) : ℚ := mkRat n 1

/-- Model of Go `math.Round`: round to nearest, ties away from zero. -/
def roundQ (q : ℚ) : ℤ :=
  if 0 ≤ q then Rat.floor (qadd q (mkRat 1 2))
  else -Rat.floor (qadd (qneg q) (mkRat 1 2))

/-- Executable minimum on `ℚ` (Go `math.Min`). -/
def qmin (a b : ℚ) : ℚ := if a ≤ b then a else b

/-- Executable maximum on `ℚ` (Go `math.Max`). -/
def qmax (a b : ℚ) : ℚ := if a ≤ b then b else a

/-! ## Points and meshes

`Point` embeds the xmorph `Point` type of point.go: a `float64`-valued
(x, y) coordinate, idealized over `ℚ`.  `Mesh` embeds the Go `Mesh`
record: the dimensions `NX`/`NY` (kept consistent with the C-side
`mesh.nx`/`mesh.ny`, as the Go code always does) together with the
coordinate and label arrays of the underlying C `MeshT`, stored here as
rows in the canonical row-major order used by the Go code. -/

/-- A `Point` is a rational-valued (x, y) coordinate.  The axes increase
right and down. -/
@[ext]
structure Point where
  x : ℚ
  y : ℚ
  deriving DecidableEq, Repr

/-- `Point.Add` from point.go: componentwise addition. -/
def Point.Add (p q : Point) : Point := ⟨qadd p.x q.x, qadd p.y q.y⟩

/-- `Point.Sub` from point.go: componentwise subtraction. -/
def Point.Sub (p q : Point) : Point := ⟨qsub p.x q.x, qsub p.y q.y⟩

/-- `Point.Mul` from point.go: multiplication by a scalar. -/
def Point.Mul (p : Point) (k : ℚ) : Point := ⟨qmul p.x k, qmul p.y k⟩

/-- `Point.Div` from point.go: division by a scalar. -/
def Point.Div (p : Point) (k : ℚ) : Point := ⟨qdiv p.x k, qdiv p.y k⟩

/-- A `Mesh` is the xmorph mesh record: dimensions plus the row-major
grid of points and integer labels held by the underlying C `MeshT`. -/
structure Mesh where
  nx : ℕ
  ny : ℕ
  pts : List (List Point)
  labels : List (List ℤ)
  deriving DecidableEq, Repr

/-- A mesh is well formed when its point and label grids both have
exactly `ny` rows of `nx` entries (always true of the dense C arrays). -/
def meshWF (m : Mesh) : Prop :=
  m.pts.length = m.ny ∧ (∀ r ∈ m.pts, r.length = m.nx) ∧
  m.labels.length = m.ny ∧ (∀ r ∈ m.labels, r.length = m.nx)

instance (m : Mesh) : Decidable (meshWF m) := by
  unfold meshWF; infer_instance

/-- Modelled from the spec: libmorph `meshNew` (not part of this
repository) allocates an nx-by-ny grid of zero points (zero labels). -/
def meshNew (nx ny : ℕ) : Mesh :=
  { nx := nx
    ny := ny
    pts := List.replicate ny (List.replicate nx ⟨0, 0⟩)
    labels := List.replicate ny (List.replicate nx 0) }

/-- `NewEmptyMesh` from mesh.go: creates a new, empty mesh of a given
number of vertices.  The Go function performs no validation of `nx` and
`ny`; it stores the requested dimensions and calls `meshNew`. -/
def NewEmptyMesh (nx ny : ℕ) : Mesh := meshNew nx ny

/-- `MeshFromPoints` from mesh.go: builds a mesh from a 2-D slice of
points, with zero labels.  The Go function panics when the slice is
smaller than 4x4 or ragged; both callers in scope (`ReadMesh` and the
claim witnesses) construct slices that satisfy the check, so the panic
path is unreachable here and the function is modelled as total. -/
def MeshFromPoints (sl : List (List Point)) : Mesh :=
  { nx := (sl.headD []).length
    ny := sl.length
    pts := sl
    labels := sl.map (fun r => List.replicate r.length 0) }

/-- Modelled from the spec: libmorph `meshCompatibilityCheck` (not part
of this repository) reports compatibility exactly when the two meshes
have equal dimensions (`Compatible(m1, m2)` iff `m1.NX == m2.NX and
m1.NY == m2.NY`). -/
def meshCompatible (m1 m2 : Mesh) : Prop := m1.nx = m2.nx ∧ m1.ny = m2.ny

instance (m1 m2 : Mesh) : Decidable (meshCompatible m1 m2) := by
  unfold meshCompatible; infer_instance

/-- Componentwise linear interpolation of two points at fraction `t`:
`(1-t)*p + t*q`. -/
def lerpP (t : ℚ) (p q : Point) : Point :=
  ⟨qadd (qmul (qsub 1 t) p.x) (qmul t q.x),
   qadd (qmul (qsub 1 t) p.y) (qmul t q.y)⟩

/-- Modelled from the spec: libmorph `meshInterpolate` (not part of this
repository) sets every point of the output mesh to the componentwise
linear interpolation `(1-t)*m1[i] + t*m2[i]`; the repository test
`TestInterpolate` asserts exactly this formula. -/
def meshInterpolatePts (t : ℚ) (p1 p2 : List (List Point)) : List (List Point) :=
  List.zipWith (fun r1 r2 => List.zipWith (lerpP t) r1 r2) p1 p2

/-- `InterpolateMeshes` from mesh.go: checks that `t` lies in [0, 1] and
that the meshes are compatible, then copies `m1` and overwrites its
points with the interpolation (labels and dimensions are kept from the
copy of `m1`). -/
def InterpolateMeshes (m1 m2 : Mesh) (t : ℚ) : Except String Mesh :=
  if t < 0 ∨ 1 < t then
    .error "interpolation fraction does not lie in the range 0 to 1"
  else if ¬meshCompatible m1 m2 then
    .error "incompatible meshes passed to InterpolateMeshes"
  else
    .ok { nx := m1.nx
          ny := m1.ny
          pts := meshInterpolatePts t m1.pts m2.pts
          labels := m1.labels }

/-! ## Decimal formatting and scanning

The Go code formats numbers with `fmt.Fprintf`/`fmt.Fprintln` and scans
them with `fmt.Sscan`.  Both are modelled here over `List Char` (in
this Lean version a `String` is a structure wrapping a `List Char`). -/

/-- The decimal digit character for `d < 10`. -/
def digitChar (d : ℕ) : Char :=
  match d with
  | 0 => '0' | 1 => '1' | 2 => '2' | 3 => '3' | 4 => '4'
  | 5 => '5' | 6 => '6' | 7 => '7' | 8 => '8' | _ => '9'

/-- The digit value of a decimal digit character. -/
def charToDigit (c : Char) : Option ℕ :=
  if '0' ≤ c ∧ c ≤ '9' then some (c.toNat - 48) else none

/-- Fuel-driven decimal rendering of a natural number (most significant
digit first).  The fuel argument only serves termination; `natDec`
supplies enough. -/
def natDecAux : ℕ → ℕ → List Char
  | 0, _ => []
  | fuel + 1, n =>
    if n < 10 then [digitChar n]
    else natDecAux fuel (n / 10) ++ [digitChar (n % 10)]

/-- Decimal rendering of a natural number (Go `%d` / `%.0f` on a
nonnegative integral value). -/
def natDec (n : ℕ) : List Char := natDecAux (n + 1) n

/-- Decimal rendering of an integer (Go `%d` / `%.0f` on an integral
value). -/
def intDec (i : ℤ) : List Char :=
  if i < 0 then '-' :: natDec (-i).toNat else natDec i.toNat

/-- One step of decimal scanning: shift in the next digit, or fail. -/
def decStep (acc : Option ℕ) (c : Char) : Option ℕ :=
  match acc, charToDigit c with
  | some a, some d => some (a * 10 + d)
  | _, _ => none

/-- Decimal scanning of a natural number: every character must be a
digit and there must be at least one. -/
def decToNat (cs : List Char) : Option ℕ :=
  if cs.isEmpty then none else cs.foldl decStep (some 0)

/-- Decimal scanning of an optionally negated integer (the integer verb
of `fmt.Sscan`). -/
def decToInt (cs : List Char) : Option ℤ :=
  match cs with
  | [] => none
  | c :: rest =>
    if c = '-' then (decToNat rest).map (fun n => -(n : ℤ))
    else (decToNat (c :: rest)).map (fun n => (n : ℤ))

/-- Skip leading spaces (the whitespace skipping of `fmt.Sscan`). -/
def dropSpaces (cs : List Char) : List Char := cs.dropWhile (fun c => c = ' ')

/-- Read one whitespace-delimited token, returning it together with the
unconsumed remainder; `none` when only whitespace remains. -/
def nextTok (cs : List Char) : Option (List Char × List Char) :=
  let cs1 := dropSpaces cs
  if cs1.isEmpty then none
  else some (cs1.takeWhile (fun c => ¬(c = ' ')), cs1.dropWhile (fun c => ¬(c = ' ')))

/-- Model of `fmt.Sscan(ln, &a, &b)` with two integer operands: scans
two whitespace-separated integers and ignores any trailing input. -/
def parse2Ints (s : String) : Option (ℤ × ℤ) := do
  let (t1, r1) ← nextTok s.data
  let a ← decToInt t1
  let (t2, _) ← nextTok r1
  let b ← decToInt t2
  some (a, b)

/-- Model of `fmt.Sscan(ln, &x, &y, &label)` with three integer
operands: scans three whitespace-separated integers and ignores any
trailing input. -/
def parse3Ints (s : String) : Option (ℤ × ℤ × ℤ) := do
  let (t1, r1) ← nextTok s.data
  let x ← decToInt t1
  let (t2, r2) ← nextTok r1
  let y ← decToInt t2
  let (t3, _) ← nextTok r2
  let lab ← decToInt t3
  some (x, y, lab)

/-- Round to nearest with ties to even (the rounding used when Go
formats a value with `%.6f`). -/
def roundHalfEven (q : ℚ) : ℤ :=
  let f := Rat.floor q
  let r := qsub q (qofInt f)
  if r < mkRat 1 2 then f
  else if mkRat 1 2 < r then f + 1
  else if f % 2 = 0 then f else f + 1

/-- Left-pad a digit string with zeros to six places. -/
def padLeft6 (cs : List Char) : List Char :=
  List.replicate (6 - cs.length) '0' ++ cs

/-- The digits of a nonnegative value rendered with six decimals. -/
def fmt6Core (q : ℚ) : List Char :=
  let n := roundHalfEven (qmul q (qofNat 1000000))
  natDec (n / 1000000).toNat ++ '.' :: padLeft6 (natDec (n % 1000000).toNat)

/-- Model of Go `%.6f` formatting. -/
def fmt6 (q : ℚ) : List Char :=
  if q < 0 then '-' :: fmt6Core (qneg q) else fmt6Core q

/-! ## The mesh codec: `Write` and `ReadMesh` -/

/-- `meshRanges` from mesh.go: the upper-left and lower-right corners of
the mesh data (the Go loop accumulates both in one pass, starting from
the first point; it is modelled as two folds with the same start). -/
def meshRanges (m : Mesh) : Point × Point :=
  let ps := m.pts.flatten
  let p0 := ps.headD ⟨0, 0⟩
  (ps.foldl (fun ul p => ⟨qmin ul.x p.x, qmin ul.y p.y⟩) p0,
   ps.foldl (fun lr p => ⟨qmax lr.x p.x, qmax lr.y p.y⟩) p0)

/-- One coordinate line of a mesh file: `"%.0f %.0f %d"` applied to
`math.Round(x*10)`, `math.Round(y*10)` and the label. -/
def coordLine (p : Point) (lab : ℤ) : String :=
  String.mk (intDec (roundQ (qmul p.x (qofNat 10))) ++ ' ' ::
    (intDec (roundQ (qmul p.y (qofNat 10))) ++ ' ' :: intDec lab))

/-- The trailing subimage-information block emitted by `Write`,
line for line. -/
def sisLines (m : Mesh) : List String :=
  let r := meshRanges m
  let ul := r.1
  let lr := r.2
  let dx := qsub lr.x ul.x
  let dy := qsub lr.y ul.y
  let eye1 : Point := ⟨qadd ul.x (qdiv dx (qofNat 3)), qadd ul.y (qdiv dy (qofNat 3))⟩
  let eye2 : Point := ⟨qadd ul.x (qdiv (qmul (qofNat 2) dx) (qofNat 3)), qadd ul.y (qdiv dy (qofNat 3))⟩
  let eye3 : Point := ⟨qadd ul.x (qdiv dx (qofNat 2)), qadd ul.y (qdiv (qmul (qofNat 2) dy) (qofNat 3))⟩
  let origLine := String.mk (intDec (Rat.ceil (qadd dx 1)) ++ ' ' :: intDec (Rat.ceil (qadd dy 1)))
  let rectLine := String.mk (intDec (Rat.floor ul.x) ++ ' ' ::
    (intDec (Rat.floor ul.y) ++ ' ' :: (intDec (Rat.ceil lr.x) ++ ' ' :: intDec (Rat.ceil lr.y))))
  let eyeLine := fun (p : Point) => String.mk (fmt6 p.x ++ ' ' :: fmt6 p.y)
  ["<SIS>", "<orig>", origLine, "</orig>", "<rect>", rectLine, "</rect>",
   "<eye>", eyeLine eye1, "</eye>", "<eye>", eyeLine eye2, "</eye>",
   "<eye>", eyeLine eye3, "</eye>", "</SIS>",
   "<resulting image size>", origLine, "</resulting image size>",
   "<features>", "<name>", "feature 0", "</name>", "<name>", "feature 1",
   "</name>", "<name>", "feature 2", "</name>", "</features>"]

/-- `Write` from mesh.go, as the list of lines it sends to the writer:
the `M2` header, the dimension line, one line per point in row-major
order and finally the subimage block.  The `io.Writer` error returns are
not modelled (the writer never fails here). -/
def MeshWrite (m : Mesh) : List String :=
  "M2" :: String.mk (natDec m.nx ++ ' ' :: natDec m.ny) ::
    ((m.pts.flatten.zip m.labels.flatten).map fun pl => coordLine pl.1 pl.2)
    ++ sisLines m

/-- The inner loop of `ReadMesh`: scan and parse `n` coordinate lines
(the label of each line is parsed and then discarded, exactly as in the
Go code, which only keeps `x` and `y`). -/
def readRow : ℕ → List String → Except String (List Point × List String)
  | 0, lines => .ok ([], lines)
  | _ + 1, [] => .error "failed to read mesh coordinates"
  | n + 1, l :: rest =>
    match parse3Ints l with
    | none => .error "failed to parse line as x y label"
    | some (x, y, _) =>
      match readRow n rest with
      | .error e => .error e
      | .ok (ps, rem) =>
        .ok (⟨qdiv (qofInt x) (qofNat 10), qdiv (qofInt y) (qofNat 10)⟩ :: ps, rem)

/-- The outer loop of `ReadMesh`: read `ny` rows of `nx` points each. -/
def readGrid : ℕ → ℕ → List String → Except String (List (List Point) × List String)
  | 0, _, lines => .ok ([], lines)
  | j + 1, nx, lines =>
    match readRow nx lines with
    | .error e => .error e
    | .ok (row, rest) =>
      match readGrid j nx rest with
      | .error e => .error e
      | .ok (rows, rem) => .ok (row :: rows, rem)

/-- `ReadMesh` from mesh.go, over the list of lines produced by the
buffered line scanner: parse the `M2` header, the dimension line and
`nx*ny` coordinate lines, then build the mesh; everything after the
required lines (the optional subimage block) is ignored. -/
def ReadMesh (lines : List String) : Except String Mesh :=
  match lines with
  | [] => .error "failed to read the mesh header"
  | hdr :: rest =>
    if hdr ≠ "M2" then .error "invalid mesh header" else
    match rest with
    | [] => .error "failed to read the mesh dimensions"
    | dl :: rest2 =>
      match parse2Ints dl with
      | none => .error "failed to parse the mesh dimensions"
      | some (nx, ny) =>
        if nx < 4 ∨ ny < 4 then .error "mesh must be at least 4x4" else
        match readGrid ny.toNat nx.toNat rest2 with
        | .error e => .error e
        | .ok (sl, _) => .ok (MeshFromPoints sl)

/-! ## The warp engine

`warp_image_versatile` lives in the opaque libmorph C library and is
not part of this repository, so it is modelled from the specification
(section 4.4): the destination mesh partitions the output into quad
cells; for every output pixel the containing cell is located, the
pixel's bilinear cell parameters (u, v) are computed by inverting the
cell's bilinear map, the same (u, v) are applied to the corresponding
source-mesh cell, and the source image is sampled there with the
nearest-neighbor kernel (coordinates clamped at the image edges).  The
spec (section 9) leaves the numeric inverse open; here it is a fixed
three-step Newton iteration started at (1/2, 1/2), and the sample
position is computed in displacement form, `p + (Bsrc(u,v) - Bdst(u,v))`,
which coincides with `Bsrc(u,v)` whenever the iteration solves
`Bdst(u,v) = p` exactly and realizes the spec's contract that warping a
mesh onto itself is the identity. -/

/-- The forward bilinear map of a quad cell with corners `a` (top
left), `b` (top right), `c` (bottom left), `d` (bottom right):
`a + u*(b-a) + v*(c-a) + u*v*(d-c-b+a)`. -/
def bilin (a b c d : Point) (u v : ℚ) : Point :=
  ((a.Add ((b.Sub a).Mul u)).Add ((c.Sub a).Mul v)).Add
    ((((d.Sub c).Sub b).Add a).Mul (qmul u v))

/-- The cross product of two displacement vectors. -/
def crossP (e w : Point) : ℚ := qsub (qmul e.x w.y) (qmul e.y w.x)

/-- Whether point `p` lies inside (or on the boundary of) the quad with
corners `a`, `b`, `d`, `c` in cyclic order. -/
def inQuad (a b c d p : Point) : Prop :=
  0 ≤ crossP (b.Sub a) (p.Sub a) ∧ 0 ≤ crossP (d.Sub b) (p.Sub b) ∧
  0 ≤ crossP (c.Sub d) (p.Sub d) ∧ 0 ≤ crossP (a.Sub c) (p.Sub c)

instance (a b c d p : Point) : Decidable (inQuad a b c d p) := by
  unfold inQuad; infer_instance

/-- The four corners of cell (i, j) of a mesh. -/
def cellOf (m : Mesh) (ij : ℕ × ℕ) : Point × Point × Point × Point :=
  let row1 := m.pts.getD ij.2 []
  let row2 := m.pts.getD (ij.2 + 1) []
  (row1.getD ij.1 ⟨0, 0⟩, row1.getD (ij.1 + 1) ⟨0, 0⟩,
   row2.getD ij.1 ⟨0, 0⟩, row2.getD (ij.1 + 1) ⟨0, 0⟩)

/-- Locate the first cell of `m` (row-major scan) containing `p`;
falls back to cell (0, 0) when no cell contains `p`. -/
def findCell (m : Mesh) (p : Point) : ℕ × ℕ :=
  (((List.range (m.ny - 1)).flatMap fun j =>
      (List.range (m.nx - 1)).map fun i => (i, j)).find? fun ij =>
        let q := cellOf m ij
        decide (inQuad q.1 q.2.1 q.2.2.1 q.2.2.2 p)).getD (0, 0)

/-- One Newton step for inverting the bilinear map of a cell at `p`;
the step is skipped when the local Jacobian is singular. -/
def newtonStep (a b c d p : Point) (uv : ℚ × ℚ) : ℚ × ℚ :=
  let g := ((d.Sub c).Sub b).Add a
  let f := (bilin a b c d uv.1 uv.2).Sub p
  let du := (b.Sub a).Add (g.Mul uv.2)
  let dv := (c.Sub a).Add (g.Mul uv.1)
  let det := qsub (qmul du.x dv.y) (qmul du.y dv.x)
  if det = 0 then uv
  else
    (qsub uv.1 (qdiv (qsub (qmul f.x dv.y) (qmul f.y dv.x)) det),
     qsub uv.2 (qdiv (qsub (qmul du.x f.y) (qmul du.y f.x)) det))

/-- Approximate bilinear cell parameters of `p` in the given cell:
three Newton steps from (1/2, 1/2).  Exact whenever the cell is a
parallelogram with nonsingular frame (the map is then affine). -/
def invBilin (a b c d p : Point) : ℚ × ℚ :=
  newtonStep a b c d p (newtonStep a b c d p
    (newtonStep a b c d p (mkRat 1 2, mkRat 1 2)))

/-- The source-image sample position for output pixel `p`: locate the
containing cell of the destination mesh, invert its bilinear map, and
carry the cell-local parameters over to the source mesh. -/
def samplePos (src dst : Mesh) (p : Point) : Point :=
  let ij := findCell dst p
  let s := cellOf src ij
  let t := cellOf dst ij
  let uv := invBilin t.1 t.2.1 t.2.2.1 t.2.2.2 p
  p.Add ((bilin s.1 s.2.1 s.2.2.1 s.2.2.2 uv.1 uv.2).Sub
    (bilin t.1 t.2.1 t.2.2.1 t.2.2.2 uv.1 uv.2))

/-- Clamp an integer to the interval `[lo, hi]`. -/
def clampZ (x lo hi : ℤ) : ℤ := if x < lo then lo else if hi < x then hi else x

/-- The integer pixel coordinates sampled for output pixel (x, y) of a
`wd`-by-`ht` image: the sample position rounded to the nearest pixel
and clamped to the image. -/
def sampleIdx (src dst : Mesh) (wd ht : ℕ) (x y : ℕ) : ℕ × ℕ :=
  let sp := samplePos src dst ⟨qofNat x, qofNat y⟩
  ((clampZ (roundQ sp.x) 0 ((wd : ℤ) - 1)).toNat,
   (clampZ (roundQ sp.y) 0 ((ht : ℤ) - 1)).toNat)

/-- Modelled from the spec: the pixel grid produced by libmorph
`warp_image_versatile` (not part of this repository) for a grid of
pixels of any one type: every output pixel is the nearest-neighbor
sample of the input grid at the warped position. -/
def warpGrid {α : Type} (dfl : α) (pix : List (List α)) (wd ht : ℕ)
    (src dst : Mesh) : List (List α) :=
  (List.range ht).map fun y =>
    (List.range wd).map fun x =>
      let i := sampleIdx src dst wd ht x y
      (pix.getD i.2 []).getD i.1 dfl

/-! ## Images and morphing

Go `image.NRGBA` and `image.CMYK` values both carry a bounds rectangle
and four bytes per pixel; `image.Gray` and `image.Alpha` carry one byte
per pixel.  Bytes are modelled as naturals (well-formed images keep
them below 256). -/

/-- An integer rectangle, as Go `image.Rectangle` (min inclusive, max
exclusive). -/
structure Rect where
  minX : ℤ
  minY : ℤ
  maxX : ℤ
  maxY : ℤ
  deriving DecidableEq, Repr

/-- The pixel width of a rectangle. -/
def Rect.wd (r : Rect) : ℕ := (r.maxX - r.minX).toNat

/-- The pixel height of a rectangle. -/
def Rect.ht (r : Rect) : ℕ := (r.maxY - r.minY).toNat

/-- A four-channel pixel (R, G, B, A for NRGBA; C, M, Y, K for CMYK). -/
structure Pix4 where
  c0 : ℕ
  c1 : ℕ
  c2 : ℕ
  c3 : ℕ
  deriving DecidableEq, Repr

/-- A four-channel image (Go `image.NRGBA` or `image.CMYK`): bounds and
a row-major pixel grid. -/
structure Image4 where
  rect : Rect
  pix : List (List Pix4)
  deriving DecidableEq, Repr

/-- A one-channel image (Go `image.Gray` or `image.Alpha`). -/
structure Image1 where
  rect : Rect
  pix : List (List ℕ)
  deriving DecidableEq, Repr

/-- An image is well formed when its grid fills its bounds exactly and
every channel value fits in a byte. -/
def image4WF (img : Image4) : Prop :=
  img.pix.length = img.rect.ht ∧ (∀ r ∈ img.pix, r.length = img.rect.wd) ∧
  ∀ r ∈ img.pix, ∀ p ∈ r, p.c0 < 256 ∧ p.c1 < 256 ∧ p.c2 < 256 ∧ p.c3 < 256

instance (img : Image4) : Decidable (image4WF img) := by
  unfold image4WF; infer_instance

/-- `image.NRGBA.NRGBAAt` / `image.CMYK.CMYKAt`: the pixel at global
coordinates (x, y), or the zero pixel outside the bounds. -/
def at4 (img : Image4) (x y : ℤ) : Pix4 :=
  if img.rect.minX ≤ x ∧ x < img.rect.maxX ∧ img.rect.minY ≤ y ∧ y < img.rect.maxY then
    (img.pix.getD (y - img.rect.minY).toNat []).getD (x - img.rect.minX).toNat ⟨0, 0, 0, 0⟩
  else ⟨0, 0, 0, 0⟩

/-- An `image.Image` value as received by `Morph` and `Warp`: the
dynamic type tag together with the pixel data.  (Image types other
than these four reach only the generic conversion path of `warpOnly`
and the panic path of `Morph`; they are not modelled.) -/
inductive GoImage where
  | nrgba (img : Image4)
  | cmyk (img : Image4)
  | gray (img : Image1)
  | alpha (img : Image1)
  deriving DecidableEq, Repr

/-- The dynamic type of an image value (Go `reflect.TypeOf`). -/
inductive ImgType where
  | nrgbaT
  | cmykT
  | grayT
  | alphaT
  deriving DecidableEq, Repr

/-- The dynamic type tag of a `GoImage`. -/
def GoImage.tag : GoImage → ImgType
  | .nrgba _ => .nrgbaT
  | .cmyk _ => .cmykT
  | .gray _ => .grayT
  | .alpha _ => .alphaT

/-- `warpNRGBA` / `warpCMYK` from warp.go: warp the pixel grid, keep
the stride and bounds. -/
def warp4 (img : Image4) (src dst : Mesh) : Image4 :=
  { rect := img.rect
    pix := warpGrid ⟨0, 0, 0, 0⟩ img.pix img.rect.wd img.rect.ht src dst }

/-- `warpGray` / `warpAlpha` from warp.go: warp the one-channel grid. -/
def warp1 (img : Image1) (src dst : Mesh) : Image1 :=
  { rect := img.rect
    pix := warpGrid 0 img.pix img.rect.wd img.rect.ht src dst }

/-- `warpOnly` from warp.go: check mesh compatibility, then dispatch on
the image type. -/
def warpOnly (img : GoImage) (src dst : Mesh) : Except String GoImage :=
  if ¬meshCompatible src dst then
    .error "incompatible meshes passed to InterpolateMeshes"
  else
    match img with
    | .nrgba i => .ok (.nrgba (warp4 i src dst))
    | .gray i => .ok (.gray (warp1 i src dst))
    | .cmyk i => .ok (.cmyk (warp4 i src dst))
    | .alpha i => .ok (.alpha (warp1 i src dst))

/-- `Warp` from warp.go: interpolate the source mesh a fraction of the
way to the destination mesh, then warp from the source mesh onto the
resulting target mesh. -/
def Warp (img : GoImage) (src dst : Mesh) (t : ℚ) : Except String GoImage :=
  match InterpolateMeshes src dst t with
  | .error e => .error e
  | .ok target => warpOnly img src target

/-! ## Morphing (morph.go) -/

/-- `avgU8` from morph.go: the weighted average of two byte values,
`uint8(math.Round(a*(1-t) + b*t))`.  (The `uint8` conversion is modelled
as reduction modulo 256; for `t` in [0, 1] and byte inputs the rounded
value is already a byte, which is the only case the Go conversion
defines.) -/
def avgU8 (a b : ℕ) (t : ℚ) : ℕ :=
  ((roundQ (qadd (qmul (qofNat a) (qsub 1 t)) (qmul (qofNat b) t))) % 256).toNat

/-- The blending loop of `morphNRGBA`/`morphCMYK`: a new image over the
first warp's bounds whose every channel is the weighted average of the
two warped images' channels at the same global coordinates (pixels read
outside an image's bounds are zero, as with `NRGBAAt`). -/
def blend4 (sw dw : Image4) (t : ℚ) : Image4 :=
  { rect := sw.rect
    pix := (List.range sw.rect.ht).map fun (y : ℕ) =>
      (List.range sw.rect.wd).map fun (x : ℕ) =>
        let cs := at4 sw (sw.rect.minX + (x : ℤ)) (sw.rect.minY + (y : ℤ))
        let cd := at4 dw (sw.rect.minX + (x : ℤ)) (sw.rect.minY + (y : ℤ))
        (⟨avgU8 cs.c0 cd.c0 t, avgU8 cs.c1 cd.c1 t,
          avgU8 cs.c2 cd.c2 t, avgU8 cs.c3 cd.c3 t⟩ : Pix4) }

/-- The Go type assertion `sw.(*image.NRGBA)` / `sw.(*image.CMYK)`
applied to a warp result (always of the asserted type here). -/
def asImage4 : GoImage → Image4
  | .nrgba i => i
  | .cmyk i => i
  | .gray _ => ⟨⟨0, 0, 0, 0⟩, []⟩
  | .alpha _ => ⟨⟨0, 0, 0, 0⟩, []⟩

/-- `morphNRGBA` from morph.go: warp the source image with
`Warp(sImg, sMesh, dMesh, t)` and the destination image with
`Warp(dImg, sMesh, dMesh, 1-t)`, then blend the two warps. -/
def morphNRGBA (sImg dImg : Image4) (sMesh dMesh : Mesh) (t : ℚ) :
    Except String Image4 :=
  match Warp (.nrgba sImg) sMesh dMesh t with
  | .error e => .error e
  | .ok sw =>
    match Warp (.nrgba dImg) sMesh dMesh (qsub 1 t) with
    | .error e => .error e
    | .ok dw => .ok (blend4 (asImage4 sw) (asImage4 dw) t)

/-- `morphCMYK` from morph.go: identical to `morphNRGBA` with CMYK
channels. -/
def morphCMYK (sImg dImg : Image4) (sMesh dMesh : Mesh) (t : ℚ) :
    Except String Image4 :=
  match Warp (.cmyk sImg) sMesh dMesh t with
  | .error e => .error e
  | .ok sw =>
    match Warp (.cmyk dImg) sMesh dMesh (qsub 1 t) with
    | .error e => .error e
    | .ok dw => .ok (blend4 (asImage4 sw) (asImage4 dw) t)

/-- The possible outcomes of `Morph`: a returned image, a returned
error value, or a runtime panic. -/
inductive MorphResult where
  | ok (img : GoImage)
  | err (msg : String)
  | panicked (msg : String)
  deriving DecidableEq, Repr

/-- Whether a `MorphResult` is a returned image. -/
def MorphResult.isOk : MorphResult → Bool
  | .ok _ => true
  | _ => false

/-- Whether a `MorphResult` is a runtime panic. -/
def MorphResult.isPanic : MorphResult → Bool
  | .panicked _ => true
  | _ => false

/-- Lift the `(image, error)` pair of a helper into a `MorphResult`. -/
def liftMorph (f : Image4 → GoImage) : Except String Image4 → MorphResult
  | .error e => .err e
  | .ok i => .ok (f i)

/-- `Morph` from morph.go: panics when the two images have different
dynamic types, dispatches NRGBA and CMYK pairs to the per-type helpers,
and panics for every other (matching) image type. -/
def Morph (sImg dImg : GoImage) (sMesh dMesh : Mesh) (t : ℚ) : MorphResult :=
  match sImg, dImg with
  | .nrgba s, .nrgba d => liftMorph .nrgba (morphNRGBA s d sMesh dMesh t)
  | .cmyk s, .cmyk d => liftMorph .cmyk (morphCMYK s d sMesh dMesh t)
  | _, _ => .panicked "morphing between these image types is not yet implemented"

/-- The morph computation that claim C1 describes, following the words
of the spec (section 4.5): compute the intermediate mesh
`target = Interpolate(srcMesh, dstMesh, t)`, produce
`warpedSrc = Warp(srcImg, srcMesh, target, 1.0)` and
`warpedDst = Warp(dstImg, dstMesh, target, 1.0)`, and blend them with
weight `t`. -/
def morphNRGBASpec (sImg dImg : Image4) (sMesh dMesh : Mesh) (t : ℚ) :
    Except String Image4 :=
  match InterpolateMeshes sMesh dMesh t with
  | .error e => .error e
  | .ok target =>
    match Warp (.nrgba sImg) sMesh target 1 with
    | .error e => .error e
    | .ok sw =>
      match Warp (.nrgba dImg) dMesh target 1 with
      | .error e => .error e
      | .ok dw => .ok (blend4 (asImage4 sw) (asImage4 dw) t)

/-- Whether an `Except` computation succeeded. -/
def exOk {ε α : Type} : Except ε α → Bool
  | .ok _ => true
  | .error _ => false

/-- The mesh value produced by a successful `InterpolateMeshes m1 m2 t`
call: the pointwise interpolation, with dimensions and labels copied
from `m1`. -/
def targetMesh (m1 m2 : Mesh) (t : ℚ) : Mesh :=
  { nx := m1.nx
    ny := m1.ny
    pts := meshInterpolatePts t m1.pts m2.pts
    labels := m1.labels }

/-! ## Concrete inputs used by counterexamples and witnesses -/

/-- A regular 4x4 mesh spanning the 3x3 test image (points at thirds of
[0, 2] in both axes), as `NewRegularMesh(4, 4, 3, 3)` builds. -/
def cexMeshA : Mesh :=
  MeshFromPoints ((List.range 4).map fun j =>
    (List.range 4).map fun i =>
      ⟨qdiv (qofNat (2 * i)) (qofNat 3), qdiv (qofNat (2 * j)) (qofNat 3)⟩)

/-- A 4x4 mesh over the same area whose three left columns collapse to
x = 0 (rows unchanged): compatible with `cexMeshA`, bounded by the
image, monotone (non-decreasing), and different from it. -/
def cexMeshB : Mesh :=
  MeshFromPoints ((List.range 4).map fun j =>
    [⟨0, qdiv (qofNat (2 * j)) (qofNat 3)⟩, ⟨0, qdiv (qofNat (2 * j)) (qofNat 3)⟩,
     ⟨0, qdiv (qofNat (2 * j)) (qofNat 3)⟩, ⟨2, qdiv (qofNat (2 * j)) (qofNat 3)⟩])

/-- A 3x3 NRGBA test image whose red channel encodes the pixel
position. -/
def cexImgA : Image4 :=
  ⟨⟨0, 0, 3, 3⟩, (List.range 3).map fun y =>
    (List.range 3).map fun x => ⟨3 * y + x, 0, 0, 255⟩⟩

/-- A second 3x3 NRGBA test image, distinct from `cexImgA`. -/
def cexImgB : Image4 :=
  ⟨⟨0, 0, 3, 3⟩, (List.range 3).map fun y =>
    (List.range 3).map fun x => ⟨40 + 2 * (3 * y + x), 7, 0, 255⟩⟩

/-- A 2x2 NRGBA test image (bounds different from `cexImgA`). -/
def cexImgSmall : Image4 :=
  ⟨⟨0, 0, 2, 2⟩, (List.range 2).map fun y =>
    (List.range 2).map fun x => ⟨200 + 2 * y + x, 0, 0, 255⟩⟩

/-- The red channel of pixel (x, y) of a morph result (zero for an
error, a panic, or a non-NRGBA payload); used to exhibit concrete
differences between morph results without forcing every pixel. -/
def morphPixel (r : MorphResult) (x y : ℕ) : ℕ :=
  match r with
  | .ok (.nrgba i) => ((i.pix.getD y []).getD x ⟨0, 0, 0, 0⟩).c0
  | _ => 0

/-- A 1x1 grayscale test image. -/
def cexGrayA : Image1 := ⟨⟨0, 0, 1, 1⟩, [[5]]⟩

/-- A second 1x1 grayscale test image. -/
def cexGrayB : Image1 := ⟨⟨0, 0, 1, 1⟩, [[7]]⟩

/-- The point a successfully parsed coordinate line contributes to the
mesh: the first two scanned integers divided by ten (the zero point is
never reached on lines whose parse succeeds). -/
def lineToPoint (l : String) : Point :=
  match parse3Ints l with
  | some (x, y, _) => ⟨qdiv (qofInt x) (qofNat 10), qdiv (qofInt y) (qofNat 10)⟩
  | none => ⟨0, 0⟩

/-- The coordinate lines `Write` emits for one mesh row. -/
def rowLines (r : List Point) (lr : List ℤ) : List String :=
  (r.zip lr).map fun pl => coordLine pl.1 pl.2

/-- The coordinate reconstructed after a write/read round trip:
each coordinate is multiplied by ten, rounded, and divided by ten. -/
def rtPoint (p : Point) : Point :=
  ⟨qdiv (qofInt (roundQ (qmul p.x (qofNat 10)))) (qofNat 10),
   qdiv (qofInt (roundQ (qmul p.y (qofNat 10)))) (qofNat 10)⟩

/-- Two points agree within 1/20 (= 0.05) on each axis. -/
def ptClose (p q : Point) : Prop :=
  |p.x - q.x| ≤ 1 / 20 ∧ |p.y - q.y| ≤ 1 / 20

/-- The 5x4 mesh of claim C9 (and of the repository test `TestWrite`):
the point at column c, row r is (1.25*c, 1.75*r). -/
def c9Mesh : Mesh :=
  MeshFromPoints ((List.range 4).map fun j =>
    (List.range 5).map fun i => ⟨qmul (qofNat i) (mkRat 5 4), qmul (qofNat j) (mkRat 7 4)⟩)

/-! ## Lemmas for the executable rational layer -/

theorem qofInt_eq (i : ℤ) : qofInt i = (i : ℚ) := by
  simp [qofInt, Rat.mkRat_eq_div]

theorem qofNat_eq (n : ℕ) : qofNat n = (n : ℚ) := by
  simp [qofNat, Rat.mkRat_eq_div]

theorem qadd_eq (a b : ℚ) : qadd a b = a + b := by
  unfold qadd
  rw [Rat.mkRat_eq_div]
  push_cast
  conv_rhs => rw [← Rat.num_div_den a, ← Rat.num_div_den b]
  have ha : ((a.den : ℚ)) ≠ 0 := by exact_mod_cast a.den_nz
  have hb : ((b.den : ℚ)) ≠ 0 := by exact_mod_cast b.den_nz
  field_simp

theorem qneg_eq (a : ℚ) : qneg a = -a := by
  unfold qneg
  rw [Rat.mkRat_eq_div]
  push_cast
  conv_rhs => rw [← Rat.num_div_den a]
  field_simp

theorem qsub_eq (a b : ℚ) : qsub a b = a - b := by
  rw [qsub, qadd_eq, qneg_eq, sub_eq_add_neg]

theorem qmul_eq (a b : ℚ) : qmul a b = a * b := by
  unfold qmul
  rw [Rat.mkRat_eq_div]
  push_cast
  conv_rhs => rw [← Rat.num_div_den a, ← Rat.num_div_den b]
  have ha : ((a.den : ℚ)) ≠ 0 := by exact_mod_cast a.den_nz
  have hb : ((b.den : ℚ)) ≠ 0 := by exact_mod_cast b.den_nz
  field_simp

theorem qdiv_eq (a b : ℚ) : qdiv a b = a / b := by
  unfold qdiv
  rcases lt_trichotomy b.num 0 with hb | hb | hb
  · rw [if_neg (by omega)]
    rw [Rat.mkRat_eq_div]
    have hden : (((-b.num).toNat : ℕ) : ℚ) = -(b.num : ℚ) := by
      exact_mod_cast Int.toNat_of_nonneg (by omega : (0:ℤ) ≤ -b.num)
    push_cast
    rw [hden]
    conv_rhs => rw [← Rat.num_div_den a, ← Rat.num_div_den b]
    have ha : ((a.den : ℚ)) ≠ 0 := by exact_mod_cast a.den_nz
    have hbd : ((b.den : ℚ)) ≠ 0 := by exact_mod_cast b.den_nz
    have hbn : ((b.num : ℚ)) ≠ 0 := by exact_mod_cast (by omega : b.num ≠ 0)
    field_simp
  · rw [if_pos (by omega)]
    have hb0 : b = 0 := by
      have := Rat.num_eq_zero.mp hb
      simpa using this
    simp [hb0, hb, Rat.mkRat_eq_div]
  · rw [if_pos (by omega)]
    rw [Rat.mkRat_eq_div]
    have hden : ((b.num.toNat : ℕ) : ℚ) = (b.num : ℚ) := by
      exact_mod_cast Int.toNat_of_nonneg (by omega : (0:ℤ) ≤ b.num)
    push_cast
    rw [hden]
    conv_rhs => rw [← Rat.num_div_den a, ← Rat.num_div_den b]
    have ha : ((a.den : ℚ)) ≠ 0 := by exact_mod_cast a.den_nz
    have hbd : ((b.den : ℚ)) ≠ 0 := by exact_mod_cast b.den_nz
    have hbn : ((b.num : ℚ)) ≠ 0 := by exact_mod_cast (by omega : b.num ≠ 0)
    field_simp

theorem rat_floor_eq_floor (q : ℚ) : Rat.floor q = ⌊q⌋ := rfl

theorem mkRat_one_two : (mkRat 1 2 : ℚ) = 1 / 2 := by
  rw [Rat.mkRat_eq_div]
  norm_num

/-- Value-level description of `roundQ`. -/
theorem roundQ_eq (q : ℚ) :
    roundQ q = if 0 ≤ q then ⌊q + 1 / 2⌋ else -⌊-q + 1 / 2⌋ := by
  unfold roundQ
  rw [qadd_eq, qadd_eq, qneg_eq, rat_floor_eq_floor, rat_floor_eq_floor, mkRat_one_two]

/-- Rounding an integer returns that integer. -/
theorem roundQ_intCast (i : ℤ) : roundQ (i : ℚ) = i := by
  rw [roundQ_eq]
  by_cases h : (0 : ℚ) ≤ (i : ℚ)
  · rw [if_pos h]
    rw [Int.floor_eq_iff]
    constructor
    · linarith
    · linarith
  · rw [if_neg h]
    have hf : -⌊-(i : ℚ) + 1 / 2⌋ = -(-i) := by
      congr 1
      rw [Int.floor_eq_iff]
      refine ⟨by push_cast; linarith, by push_cast; linarith⟩
    rw [hf]; ring

/-- The rounding error of `roundQ` is at most `1/2` in absolute value. -/
theorem abs_roundQ_sub_le (q : ℚ) : |q - (roundQ q : ℚ)| ≤ 1 / 2 := by
  rw [roundQ_eq]
  by_cases h : 0 ≤ q
  · rw [if_pos h]
    have h1 : (⌊q + 1 / 2⌋ : ℚ) ≤ q + 1 / 2 := Int.floor_le _
    have h2 : q + 1 / 2 < ⌊q + 1 / 2⌋ + 1 := Int.lt_floor_add_one _
    rw [abs_le]
    constructor <;> linarith
  · rw [if_neg h]
    have h1 : (⌊-q + 1 / 2⌋ : ℚ) ≤ -q + 1 / 2 := Int.floor_le _
    have h2 : -q + 1 / 2 < ⌊-q + 1 / 2⌋ + 1 := Int.lt_floor_add_one _
    rw [abs_le]
    push_cast
    constructor <;> linarith

/-! ## Generic list lemmas -/

theorem zipWith_left_of {α β : Type} {f : α → β → α} (h : ∀ a b, f a b = a) :
    ∀ (l1 : List α) (l2 : List β), l1.length ≤ l2.length → List.zipWith f l1 l2 = l1 := by
  intro l1
  induction l1 with
  | nil => intro l2 _; simp
  | cons a l ih =>
    intro l2 hlen
    cases l2 with
    | nil => simp at hlen
    | cons b l2' =>
      simp only [List.zipWith_cons_cons, h]
      rw [ih l2' (by simpa using hlen)]

theorem zipWith_right_of {α β : Type} {f : α → β → β} (h : ∀ a b, f a b = b) :
    ∀ (l1 : List α) (l2 : List β), l2.length ≤ l1.length → List.zipWith f l1 l2 = l2 := by
  intro l1
  induction l1 with
  | nil =>
    intro l2 hlen
    cases l2 with
    | nil => rfl
    | cons b l2' => simp at hlen
  | cons a l ih =>
    intro l2 hlen
    cases l2 with
    | nil => simp
    | cons b l2' =>
      simp only [List.zipWith_cons_cons, h]
      rw [ih l2' (by simpa using hlen)]

/-- Rebuilding a list by indexed lookup returns the list. -/
theorem map_range_getD {α : Type} (d : α) :
    ∀ (l : List α), (List.range l.length).map (fun x => l.getD x d) = l := by
  intro l
  induction l with
  | nil => simp
  | cons a t ih =>
    rw [List.length_cons, List.range_succ_eq_map, List.map_cons, List.map_map]
    have hc : ((fun x => (a :: t).getD x d) ∘ Nat.succ) = fun x => t.getD x d := by
      funext x
      simp [Function.comp]
    rw [hc, ih, List.getD_cons_zero]

/-- Rebuilding a rectangular grid by indexed lookup returns the grid. -/
theorem map_range_getD_grid {α : Type} (d : α) (wd : ℕ) :
    ∀ (rows : List (List α)), (∀ r ∈ rows, r.length = wd) →
      (List.range rows.length).map
        (fun y => (List.range wd).map fun x => (rows.getD y []).getD x d) = rows := by
  intro rows
  induction rows with
  | nil => simp
  | cons r rs ih =>
    intro hw
    rw [List.length_cons, List.range_succ_eq_map, List.map_cons, List.map_map]
    have hc : ((fun y => (List.range wd).map fun x => ((r :: rs).getD y []).getD x d) ∘ Nat.succ)
        = fun y => (List.range wd).map fun x => (rs.getD y []).getD x d := by
      funext y
      simp [Function.comp]
    rw [hc, ih (fun r' hr' => hw r' (by simp [hr']))]
    simp only [List.getD_cons_zero]
    rw [← hw r (by simp), map_range_getD]

/-! ## Interpolation lemmas and claims C4, C5, C6 -/

theorem lerpP_zero (p q : Point) : lerpP 0 p q = p := by
  unfold lerpP
  ext <;> simp [qadd_eq, qmul_eq, qsub_eq]

theorem lerpP_one (p q : Point) : lerpP 1 p q = q := by
  unfold lerpP
  ext <;> simp [qadd_eq, qmul_eq, qsub_eq]

theorem lerpP_self (t : ℚ) (p : Point) : lerpP t p p = p := by
  unfold lerpP
  ext <;> (simp [qadd_eq, qmul_eq, qsub_eq]; ring)

/-- Interpolating a list of points with itself is the identity. -/
theorem zipWith_lerpP_self (t : ℚ) (l : List Point) :
    List.zipWith (lerpP t) l l = l := by
  induction l with
  | nil => rfl
  | cons p l ih =>
    simp only [List.zipWith_cons_cons, lerpP_self]
    rw [ih]

theorem meshInterpolatePts_self (t : ℚ) (pts : List (List Point)) :
    meshInterpolatePts t pts pts = pts := by
  unfold meshInterpolatePts
  induction pts with
  | nil => rfl
  | cons r rs ih =>
    simp only [List.zipWith_cons_cons, zipWith_lerpP_self]
    unfold meshInterpolatePts at ih
    rw [ih]

/-- Interpolating a mesh with itself succeeds and returns the mesh, for
any fraction in range. -/
theorem interpolate_self (m : Mesh) (t : ℚ) (h0 : 0 ≤ t) (h1 : t ≤ 1) :
    InterpolateMeshes m m t = .ok m := by
  unfold InterpolateMeshes
  rw [if_neg (by push_neg; constructor <;> linarith)]
  rw [if_neg (by simp [meshCompatible])]
  rw [meshInterpolatePts_self]

/-- Claim C4, counterexample to the statement as written: `NewEmptyMesh`
does not reject sub-4x4 dimensions; `NewEmptyMesh 2 2` succeeds and
yields a 2x2 mesh. -/
theorem claim_C4_counterexample :
    (NewEmptyMesh 2 2).nx = 2 ∧ (NewEmptyMesh 2 2).ny = 2 := by
  exact ⟨rfl, rfl⟩

/-- Claim C4, amended: `NewEmptyMesh(nx, ny)` performs no validation at
all; for every `nx` and `ny` (including values below 4) it returns a
mesh with the requested dimensions and an nx-by-ny grid of zero points.
(Only the `MeshFromPoints`/`MeshFromImagePoints` constructors enforce
the 4x4 minimum, by panicking.) -/
theorem claim_C4_amended (nx ny : ℕ) :
    (NewEmptyMesh nx ny).nx = nx ∧ (NewEmptyMesh nx ny).ny = ny ∧
    (NewEmptyMesh nx ny).pts = List.replicate ny (List.replicate nx ⟨0, 0⟩) := by
  exact ⟨rfl, rfl, rfl⟩

/-- Interpolating at fraction 0 over grids of matching shape returns
the first grid. -/
theorem interpPts_zero (n : ℕ) :
    ∀ (p1 p2 : List (List Point)), p1.length ≤ p2.length →
      (∀ r ∈ p1, r.length = n) → (∀ r ∈ p2, n ≤ r.length) →
      meshInterpolatePts 0 p1 p2 = p1 := by
  intro p1
  induction p1 with
  | nil => intro p2 _ _ _; simp [meshInterpolatePts]
  | cons r rs ih =>
    intro p2 hlen hn1 hn2
    cases p2 with
    | nil => simp at hlen
    | cons r2 rs2 =>
      unfold meshInterpolatePts at ih ⊢
      simp only [List.zipWith_cons_cons]
      rw [zipWith_left_of (fun p q => lerpP_zero p q) r r2 ?_]
      · rw [ih rs2 (by simpa using hlen) (fun r hr => hn1 r (by simp [hr]))
          (fun r hr => hn2 r (by simp [hr]))]
      · rw [hn1 r (by simp)]
        exact hn2 r2 (by simp)

/-- Interpolating at fraction 1 over grids of matching shape returns
the second grid. -/
theorem interpPts_one (n : ℕ) :
    ∀ (p1 p2 : List (List Point)), p2.length ≤ p1.length →
      (∀ r ∈ p2, r.length = n) → (∀ r ∈ p1, n ≤ r.length) →
      meshInterpolatePts 1 p1 p2 = p2 := by
  intro p1
  induction p1 with
  | nil =>
    intro p2 hlen _ _
    simp only [List.length_nil, Nat.le_zero, List.length_eq_zero] at hlen
    simp [meshInterpolatePts, hlen]
  | cons r rs ih =>
    intro p2 hlen hn2 hn1
    cases p2 with
    | nil => simp [meshInterpolatePts]
    | cons r2 rs2 =>
      unfold meshInterpolatePts at ih ⊢
      simp only [List.zipWith_cons_cons]
      rw [zipWith_right_of (fun p q => lerpP_one p q) r r2 ?_]
      · rw [ih rs2 (by simpa using hlen) (fun r hr => hn2 r (by simp [hr]))
          (fun r hr => hn1 r (by simp [hr]))]
      · rw [hn2 r2 (by simp)]
        exact hn1 r (by simp)

/-- Claim C5: for compatible (well-formed) meshes, interpolation at the
endpoints is exact: at `t = 0` every point of the result equals the
corresponding point of `m1`, and at `t = 1` every point equals the
corresponding point of `m2`. -/
theorem claim_C5_endpoints (m1 m2 : Mesh)
    (h1 : meshWF m1) (h2 : meshWF m2) (hc : meshCompatible m1 m2) :
    (∃ r, InterpolateMeshes m1 m2 0 = .ok r ∧ r.pts = m1.pts) ∧
    (∃ r, InterpolateMeshes m1 m2 1 = .ok r ∧ r.pts = m2.pts) := by
  obtain ⟨hp1, hr1, _, _⟩ := h1
  obtain ⟨hp2, hr2, _, _⟩ := h2
  obtain ⟨hnx, hny⟩ := hc
  constructor
  · refine ⟨⟨m1.nx, m1.ny, meshInterpolatePts 0 m1.pts m2.pts, m1.labels⟩, ?_, ?_⟩
    · unfold InterpolateMeshes
      rw [if_neg (by norm_num), if_neg (by simp [meshCompatible, hnx, hny])]
    · show meshInterpolatePts 0 m1.pts m2.pts = m1.pts
      refine interpPts_zero m1.nx m1.pts m2.pts (by omega) hr1 ?_
      intro r hr
      rw [hnx, hr2 r hr]
  · refine ⟨⟨m1.nx, m1.ny, meshInterpolatePts 1 m1.pts m2.pts, m1.labels⟩, ?_, ?_⟩
    · unfold InterpolateMeshes
      rw [if_neg (by norm_num), if_neg (by simp [meshCompatible, hnx, hny])]
    · show meshInterpolatePts 1 m1.pts m2.pts = m2.pts
      refine interpPts_one m2.nx m1.pts m2.pts (by omega) hr2 ?_
      intro r hr
      rw [← hnx, hr1 r hr]

/-- Claim C6: `InterpolateMeshes` succeeds exactly when the fraction
lies in [0, 1] and the meshes have equal dimensions; otherwise it
reports an error. -/
theorem claim_C6_error_iff (m1 m2 : Mesh) (t : ℚ) :
    exOk (InterpolateMeshes m1 m2 t) = true ↔
      (0 ≤ t ∧ t ≤ 1 ∧ m1.nx = m2.nx ∧ m1.ny = m2.ny) := by
  unfold InterpolateMeshes
  by_cases hr : t < 0 ∨ 1 < t
  · rw [if_pos hr]
    constructor
    · intro h; simp [exOk] at h
    · rintro ⟨h0, h1, _⟩
      exfalso
      rcases hr with h | h <;> linarith
  · rw [if_neg hr]
    push_neg at hr
    by_cases hc : meshCompatible m1 m2
    · rw [if_neg (not_not.mpr hc)]
      simp only [exOk, eq_self_iff_true, true_iff]
      exact ⟨hr.1, hr.2, hc.1, hc.2⟩
    · rw [if_pos hc]
      constructor
      · intro h; simp [exOk] at h
      · rintro ⟨_, _, hx, hy⟩
        exact absurd ⟨hx, hy⟩ hc

/-! ## Warp and morph lemmas, claims C1, C2, C3 and C10 -/

theorem point_add_zero (p : Point) : p.Add ⟨0, 0⟩ = p := by
  unfold Point.Add
  ext <;> simp [qadd_eq]

theorem point_sub_self (q : Point) : q.Sub q = (⟨0, 0⟩ : Point) := by
  unfold Point.Sub
  ext <;> simp [qsub_eq]

/-- With equal source and destination meshes the sample position of any
pixel is the pixel itself: the displacement between the two bilinear
images of (u, v) vanishes identically. -/
theorem samplePos_self (m : Mesh) (p : Point) : samplePos m m p = p := by
  simp only [samplePos, point_sub_self, point_add_zero]

theorem roundQ_qofNat (n : ℕ) : roundQ (qofNat n) = n := by
  have h : qofNat n = ((n : ℤ) : ℚ) := by rw [qofNat_eq]; push_cast; rfl
  rw [h, roundQ_intCast]

/-- With equal meshes every in-range pixel samples itself. -/
theorem sampleIdx_self (m : Mesh) (wd ht x y : ℕ) (hx : x < wd) (hy : y < ht) :
    sampleIdx m m wd ht x y = (x, y) := by
  unfold sampleIdx
  rw [samplePos_self]
  simp only [roundQ_qofNat]
  unfold clampZ
  rw [if_neg (by omega), if_neg (by omega), if_neg (by omega), if_neg (by omega)]
  simp

/-- Warping a grid from a mesh onto the same mesh is the identity. -/
theorem warpGrid_self {α : Type} (dfl : α) (pix : List (List α)) (wd ht : ℕ)
    (m : Mesh) (hh : pix.length = ht) (hw : ∀ r ∈ pix, r.length = wd) :
    warpGrid dfl pix wd ht m m = pix := by
  unfold warpGrid
  subst hh
  have hcong : ∀ y ∈ List.range pix.length,
      ((List.range wd).map fun x =>
        let i := sampleIdx m m wd pix.length x y
        (pix.getD i.2 []).getD i.1 dfl) =
      (List.range wd).map fun x => (pix.getD y []).getD x dfl := by
    intro y hy
    apply List.map_congr_left
    intro x hx
    rw [sampleIdx_self m wd pix.length x y (List.mem_range.mp hx) (List.mem_range.mp hy)]
  rw [List.map_congr_left hcong, map_range_getD_grid dfl wd pix hw]

/-- Warping a four-channel image from a mesh onto itself returns the
image. -/
theorem warp4_self (img : Image4) (m : Mesh)
    (hh : img.pix.length = img.rect.ht) (hw : ∀ r ∈ img.pix, r.length = img.rect.wd) :
    warp4 img m m = img := by
  unfold warp4
  rw [warpGrid_self _ _ _ _ _ hh hw]

/-- Reading a pixel inside the bounds returns the grid entry. -/
theorem at4_inbounds (img : Image4) (x y : ℕ)
    (hx : x < img.rect.wd) (hy : y < img.rect.ht) :
    at4 img (img.rect.minX + x) (img.rect.minY + y) =
      (img.pix.getD y []).getD x ⟨0, 0, 0, 0⟩ := by
  unfold at4
  rw [if_pos]
  · have hx1 : (img.rect.minX + x - img.rect.minX).toNat = x := by omega
    have hy1 : (img.rect.minY + y - img.rect.minY).toNat = y := by omega
    rw [hx1, hy1]
  · unfold Rect.wd at hx
    unfold Rect.ht at hy
    omega

theorem avgU8_self (v : ℕ) (t : ℚ) (hv : v < 256) : avgU8 v v t = v := by
  unfold avgU8
  have harg : qadd (qmul (qofNat v) (qsub 1 t)) (qmul (qofNat v) t) = ((v : ℤ) : ℚ) := by
    rw [qadd_eq, qmul_eq, qmul_eq, qsub_eq, qofNat_eq]
    push_cast
    ring
  rw [harg, roundQ_intCast]
  omega

/-- Blending a well-formed image with itself returns the image, for any
fraction. -/
theorem blend4_self (img : Image4) (t : ℚ) (hwf : image4WF img) :
    blend4 img img t = img := by
  obtain ⟨hh, hw, hb⟩ := hwf
  have hcell : ∀ y, y < img.rect.ht → ∀ x, x < img.rect.wd →
      (⟨avgU8 (at4 img (img.rect.minX + x) (img.rect.minY + y)).c0
          (at4 img (img.rect.minX + x) (img.rect.minY + y)).c0 t,
        avgU8 (at4 img (img.rect.minX + x) (img.rect.minY + y)).c1
          (at4 img (img.rect.minX + x) (img.rect.minY + y)).c1 t,
        avgU8 (at4 img (img.rect.minX + x) (img.rect.minY + y)).c2
          (at4 img (img.rect.minX + x) (img.rect.minY + y)).c2 t,
        avgU8 (at4 img (img.rect.minX + x) (img.rect.minY + y)).c3
          (at4 img (img.rect.minX + x) (img.rect.minY + y)).c3 t⟩ : Pix4) =
      (img.pix.getD y []).getD x ⟨0, 0, 0, 0⟩ := by
    intro y hy' x hx'
    rw [at4_inbounds img x y hx' hy']
    have hrow : img.pix.getD y [] ∈ img.pix := by
      rw [List.getD_eq_getElem img.pix [] (by omega : y < img.pix.length)]
      exact List.getElem_mem _
    have hxlt : x < (img.pix.getD y []).length := by
      rw [hw _ hrow]; exact hx'
    have hmem : (img.pix.getD y []).getD x (⟨0, 0, 0, 0⟩ : Pix4) ∈ img.pix.getD y [] := by
      rw [List.getD_eq_getElem _ _ hxlt]
      exact List.getElem_mem _
    obtain ⟨h0, h1, h2, h3⟩ := hb _ hrow _ hmem
    rw [avgU8_self _ _ h0, avgU8_self _ _ h1, avgU8_self _ _ h2, avgU8_self _ _ h3]
  unfold blend4
  dsimp only
  cases img with
  | mk rect pix =>
    dsimp only at hcell hh hw ⊢
    congr 1
    trans ((List.range rect.ht).map fun y =>
      (List.range rect.wd).map fun x => (pix.getD y []).getD x (⟨0, 0, 0, 0⟩ : Pix4))
    · apply List.map_congr_left
      intro y hy
      apply List.map_congr_left
      intro x hx
      exact hcell y (List.mem_range.mp hy) x (List.mem_range.mp hx)
    · rw [← hh]
      exact map_range_getD_grid _ _ pix hw

/-- A successful `InterpolateMeshes` call returns `targetMesh`. -/
theorem interpolate_eq_target (m1 m2 : Mesh) (t : ℚ)
    (h0 : 0 ≤ t) (h1 : t ≤ 1) (hc : meshCompatible m1 m2) :
    InterpolateMeshes m1 m2 t = .ok (targetMesh m1 m2 t) := by
  unfold InterpolateMeshes targetMesh
  rw [if_neg (by push_neg; constructor <;> linarith), if_neg (not_not.mpr hc)]

/-- What `morphNRGBA` actually computes, with every check discharged:
the source image fully warped from the source mesh onto the fraction-`t`
interpolated mesh, blended with the destination image warped from the
source mesh onto the fraction-`(1-t)` interpolated mesh. -/
theorem morphNRGBA_unfold (s d : Image4) (m1 m2 : Mesh) (t : ℚ)
    (h0 : 0 ≤ t) (h1 : t ≤ 1) (hc : meshCompatible m1 m2) :
    morphNRGBA s d m1 m2 t =
      .ok (blend4 (warp4 s m1 (targetMesh m1 m2 t))
        (warp4 d m1 (targetMesh m1 m2 (1 - t))) t) := by
  have hsub : qsub 1 t = 1 - t := qsub_eq 1 t
  have hcompat : ∀ t', meshCompatible m1 (targetMesh m1 m2 t') := by
    intro t'; exact ⟨rfl, rfl⟩
  unfold morphNRGBA Warp
  rw [interpolate_eq_target m1 m2 t h0 h1 hc, hsub,
    interpolate_eq_target m1 m2 (1 - t) (by linarith) (by linarith) hc]
  unfold warpOnly
  dsimp only
  rw [if_neg (not_not.mpr (hcompat t)), if_neg (not_not.mpr (hcompat (1 - t)))]
  rfl

set_option maxRecDepth 100000 in
set_option maxHeartbeats 1000000 in
/-- Claim C1, counterexample to the statement as written: on concrete
images, meshes and fraction, `Morph` does not return the blend of
`Warp(srcImg, srcMesh, target, 1.0)` and `Warp(dstImg, dstMesh,
target, 1.0)` that the claim prescribes (`morphNRGBASpec`): the two
results differ at pixel (1, 1) (red channel 28 versus 27). -/
theorem claim_C1_counterexample :
    morphPixel (Morph (.nrgba cexImgA) (.nrgba cexImgB) cexMeshA cexMeshB (mkRat 1 2)) 1 1 ≠
      morphPixel (liftMorph GoImage.nrgba
        (morphNRGBASpec cexImgA cexImgB cexMeshA cexMeshB (mkRat 1 2))) 1 1 := by
  decide

/-- Claim C1, amended: `Morph` on NRGBA inputs computes
`Warp(srcImg, srcMesh, dstMesh, t)` — which equals the full warp of the
source image from the source mesh onto the intermediate mesh
`Interpolate(srcMesh, dstMesh, t)` — but it passes `t` and `1-t` as
per-image warp fractions, warping the destination image from the
*source* mesh onto `Interpolate(srcMesh, dstMesh, 1-t)`, not from the
destination mesh onto the same intermediate mesh. -/
theorem claim_C1_amended (s d : Image4) (m1 m2 : Mesh) (t : ℚ)
    (h0 : 0 ≤ t) (h1 : t ≤ 1) (hc : meshCompatible m1 m2) :
    Morph (.nrgba s) (.nrgba d) m1 m2 t =
      .ok (.nrgba (blend4 (warp4 s m1 (targetMesh m1 m2 t))
        (warp4 d m1 (targetMesh m1 m2 (1 - t))) t)) := by
  show liftMorph .nrgba (morphNRGBA s d m1 m2 t) = _
  rw [morphNRGBA_unfold s d m1 m2 t h0 h1 hc]
  rfl

theorem claim_C1_witness :
    ((0 : ℚ) ≤ mkRat 1 3 ∧ (mkRat 1 3 : ℚ) ≤ 1 ∧ meshCompatible cexMeshA cexMeshB) ∧
    Morph (.nrgba cexImgA) (.nrgba cexImgB) cexMeshA cexMeshB (mkRat 1 3) =
      .ok (.nrgba (blend4 (warp4 cexImgA cexMeshA (targetMesh cexMeshA cexMeshB (mkRat 1 3)))
        (warp4 cexImgB cexMeshA (targetMesh cexMeshA cexMeshB (1 - mkRat 1 3))) (mkRat 1 3))) :=
  ⟨⟨by decide, by decide, by decide⟩,
   claim_C1_amended cexImgA cexImgB cexMeshA cexMeshB (mkRat 1 3)
     (by decide) (by decide) (by decide)⟩

set_option maxRecDepth 100000 in
set_option maxHeartbeats 1000000 in
/-- Claim C2, counterexample to the statement as written: with two
different compatible meshes over the image's bounds, morphing a
(well-formed) image with itself does not return the image: pixel (1, 1)
of the result has red channel 5 where the image has 4, so
`Morph(img, img, m1, m2, 1/2) = img` fails. -/
theorem claim_C2_counterexample :
    morphPixel (Morph (.nrgba cexImgA) (.nrgba cexImgA) cexMeshA cexMeshB (mkRat 1 2)) 1 1 ≠
      morphPixel (.ok (.nrgba cexImgA)) 1 1 := by
  decide

/-- Claim C2, amended: morphing a well-formed image with itself returns
the image pixel for pixel when the two meshes are the *same* mesh (for
any fraction in [0, 1] and any mesh); with two different meshes the
result is a warped blend, not the original image. -/
theorem claim_C2_amended (img : Image4) (m : Mesh) (t : ℚ)
    (hwf : image4WF img) (h0 : 0 ≤ t) (h1 : t ≤ 1) :
    Morph (.nrgba img) (.nrgba img) m m t = .ok (.nrgba img) := by
  have hW : ∀ t', 0 ≤ t' → t' ≤ 1 → Warp (.nrgba img) m m t' = .ok (.nrgba img) := by
    intro t' h0' h1'
    unfold Warp
    rw [interpolate_self m t' h0' h1']
    unfold warpOnly
    dsimp only
    rw [if_neg (not_not.mpr ⟨rfl, rfl⟩)]
    rw [warp4_self img m hwf.1 hwf.2.1]
  show liftMorph .nrgba (morphNRGBA img img m m t) = _
  unfold morphNRGBA
  rw [hW t h0 h1,
    hW (qsub 1 t) (by rw [qsub_eq]; linarith) (by rw [qsub_eq]; linarith)]
  show liftMorph .nrgba (.ok (blend4 img img t)) = _
  rw [blend4_self img t hwf]
  rfl

theorem claim_C2_witness :
    (image4WF cexImgA ∧ (0 : ℚ) ≤ mkRat 1 3 ∧ (mkRat 1 3 : ℚ) ≤ 1) ∧
    Morph (.nrgba cexImgA) (.nrgba cexImgA) cexMeshA cexMeshA (mkRat 1 3) =
      .ok (.nrgba cexImgA) :=
  ⟨⟨by decide, by decide, by decide⟩,
   claim_C2_amended cexImgA cexMeshA (mkRat 1 3) (by decide) (by decide) (by decide)⟩

set_option maxRecDepth 100000 in
set_option maxHeartbeats 1000000 in
/-- Claim C3, counterexample to the statement as written: `Morph` does
not check image bounds; with two NRGBA images of different bounds it
succeeds instead of reporting an error. -/
theorem claim_C3_counterexample :
    cexImgSmall.rect ≠ cexImgA.rect ∧
    (Morph (.nrgba cexImgA) (.nrgba cexImgSmall) cexMeshA cexMeshA (mkRat 1 2)).isOk
      = true := by
  decide

/-- Claim C3, amended: `Morph` performs no bounds comparison.  For any
two NRGBA images — equal bounds or not — any compatible meshes, and any
fraction in [0, 1], it succeeds, and the returned image carries the
*source* image's bounds (pixels read outside the destination warp's
bounds are treated as zero during blending). -/
theorem claim_C3_amended (s d : Image4) (m1 m2 : Mesh) (t : ℚ)
    (h0 : 0 ≤ t) (h1 : t ≤ 1) (hc : meshCompatible m1 m2) :
    ∃ r, Morph (.nrgba s) (.nrgba d) m1 m2 t = .ok (.nrgba r) ∧ r.rect = s.rect := by
  refine ⟨blend4 (warp4 s m1 (targetMesh m1 m2 t))
    (warp4 d m1 (targetMesh m1 m2 (1 - t))) t, ?_, rfl⟩
  show liftMorph .nrgba (morphNRGBA s d m1 m2 t) = _
  rw [morphNRGBA_unfold s d m1 m2 t h0 h1 hc]
  rfl

theorem claim_C3_witness :
    ((0 : ℚ) ≤ mkRat 1 2 ∧ (mkRat 1 2 : ℚ) ≤ 1 ∧ meshCompatible cexMeshA cexMeshA ∧
      cexImgSmall.rect ≠ cexImgA.rect) ∧
    ∃ r, Morph (.nrgba cexImgA) (.nrgba cexImgSmall) cexMeshA cexMeshA (mkRat 1 2) =
      .ok (.nrgba r) ∧ r.rect = cexImgA.rect :=
  ⟨⟨by decide, by decide, by decide, by decide⟩,
   claim_C3_amended cexImgA cexImgSmall cexMeshA cexMeshA (mkRat 1 2)
     (by decide) (by decide) (by decide)⟩

/-- Claim C10: `Morph` panics (rather than returning an error value)
whenever the two images have different dynamic types, and whenever
their shared type is not `*image.NRGBA` or `*image.CMYK` (for example,
two `*image.Gray` values). -/
theorem claim_C10_panics (s d : GoImage) (m1 m2 : Mesh) (t : ℚ)
    (h : s.tag ≠ d.tag ∨ (s.tag ≠ ImgType.nrgbaT ∧ s.tag ≠ ImgType.cmykT)) :
    (Morph s d m1 m2 t).isPanic = true := by
  cases s <;> cases d <;>
    first
      | rfl
      | (exfalso; simp [GoImage.tag] at h)

theorem claim_C10_witness :
    ((GoImage.gray cexGrayA).tag = (GoImage.gray cexGrayB).tag ∧
      (GoImage.gray cexGrayA).tag ≠ ImgType.nrgbaT ∧
      (GoImage.gray cexGrayA).tag ≠ ImgType.cmykT) ∧
    (Morph (.gray cexGrayA) (.gray cexGrayB) cexMeshA cexMeshA 0).isPanic = true :=
  ⟨⟨rfl, by decide, by decide⟩,
   claim_C10_panics (.gray cexGrayA) (.gray cexGrayB) cexMeshA cexMeshA 0
     (Or.inr ⟨by decide, by decide⟩)⟩

/-! ## Decimal round-trip lemmas -/

theorem digitChar_spec (d : ℕ) : ∃ e, e < 10 ∧ digitChar d = digitChar e ∧
    charToDigit (digitChar e) = some e := by
  rcases d with _ | _ | _ | _ | _ | _ | _ | _ | _ | d
  · exact ⟨0, by decide, rfl, by decide⟩
  · exact ⟨1, by decide, rfl, by decide⟩
  · exact ⟨2, by decide, rfl, by decide⟩
  · exact ⟨3, by decide, rfl, by decide⟩
  · exact ⟨4, by decide, rfl, by decide⟩
  · exact ⟨5, by decide, rfl, by decide⟩
  · exact ⟨6, by decide, rfl, by decide⟩
  · exact ⟨7, by decide, rfl, by decide⟩
  · exact ⟨8, by decide, rfl, by decide⟩
  · exact ⟨9, by decide, rfl, by decide⟩

theorem charToDigit_digitChar (d : ℕ) (h : d < 10) :
    charToDigit (digitChar d) = some d := by
  interval_cases d <;> decide

theorem digitChar_isDigit (d : ℕ) : (charToDigit (digitChar d)).isSome := by
  obtain ⟨e, _, he, hp⟩ := digitChar_spec d
  rw [he, hp]
  rfl

theorem isDigit_ne_space {c : Char} (h : (charToDigit c).isSome) : c ≠ ' ' := by
  intro hc
  subst hc
  exact absurd h (by decide)

theorem isDigit_ne_minus {c : Char} (h : (charToDigit c).isSome) : c ≠ '-' := by
  intro hc
  subst hc
  exact absurd h (by decide)

theorem natDecAux_digits :
    ∀ fuel n, ∀ c ∈ natDecAux fuel n, (charToDigit c).isSome := by
  intro fuel
  induction fuel with
  | zero => intro n c hc; simp [natDecAux] at hc
  | succ fuel ih =>
    intro n c hc
    unfold natDecAux at hc
    by_cases h : n < 10
    · rw [if_pos h] at hc
      simp only [List.mem_singleton] at hc
      subst hc
      exact digitChar_isDigit n
    · rw [if_neg h] at hc
      rcases List.mem_append.mp hc with h1 | h2
      · exact ih (n / 10) c h1
      · simp only [List.mem_singleton] at h2
        subst h2
        exact digitChar_isDigit (n % 10)

theorem natDecAux_ne_nil (fuel n : ℕ) (h : n < fuel) : natDecAux fuel n ≠ [] := by
  cases fuel with
  | zero => omega
  | succ fuel =>
    unfold natDecAux
    by_cases h10 : n < 10
    · rw [if_pos h10]; simp
    · rw [if_neg h10]; simp

theorem foldl_decStep_natDecAux :
    ∀ fuel n acc, n < fuel →
      (natDecAux fuel n).foldl decStep (some acc) =
        some (acc * 10 ^ (natDecAux fuel n).length + n) := by
  intro fuel
  induction fuel with
  | zero => intro n acc h; omega
  | succ fuel ih =>
    intro n acc h
    unfold natDecAux
    by_cases h10 : n < 10
    · rw [if_pos h10]
      simp only [List.foldl_cons, List.foldl_nil, List.length_singleton]
      simp only [decStep, charToDigit_digitChar n h10]
      simp
    · rw [if_neg h10]
      have hdiv : n / 10 < fuel := by
        have h1 : n / 10 < n := Nat.div_lt_self (by omega) (by omega)
        omega
      rw [List.foldl_append, ih (n / 10) acc hdiv]
      simp only [List.foldl_cons, List.foldl_nil]
      simp only [decStep, charToDigit_digitChar (n % 10) (Nat.mod_lt n (by omega))]
      simp only [List.length_append, List.length_singleton]
      congr 1
      have hmod : n / 10 * 10 + n % 10 = n := by omega
      rw [pow_succ, Nat.add_mul, Nat.mul_assoc, Nat.add_assoc, hmod]

theorem decToNat_natDec (n : ℕ) : decToNat (natDec n) = some n := by
  unfold decToNat natDec
  rw [if_neg (by simpa using natDecAux_ne_nil (n + 1) n (by omega))]
  rw [foldl_decStep_natDecAux (n + 1) n 0 (by omega)]
  simp

theorem natDec_ne_nil (n : ℕ) : natDec n ≠ [] :=
  natDecAux_ne_nil (n + 1) n (by omega)

theorem natDec_digits (n : ℕ) : ∀ c ∈ natDec n, (charToDigit c).isSome :=
  natDecAux_digits (n + 1) n

theorem decToInt_natDec (n : ℕ) : decToInt (natDec n) = some (n : ℤ) := by
  obtain ⟨c, cs, hcs⟩ := List.exists_cons_of_ne_nil (natDec_ne_nil n)
  have hdig : (charToDigit c).isSome := by
    apply natDec_digits n
    rw [hcs]; simp
  rw [hcs]
  unfold decToInt
  dsimp only
  rw [if_neg (isDigit_ne_minus hdig), ← hcs, decToNat_natDec]
  simp

theorem intDec_eq_natDec (n : ℕ) : intDec (n : ℤ) = natDec n := by
  unfold intDec
  rw [if_neg (by omega)]
  simp

theorem decToInt_intDec (i : ℤ) : decToInt (intDec i) = some i := by
  by_cases h : i < 0
  · unfold intDec
    rw [if_pos h]
    unfold decToInt
    dsimp only
    rw [if_pos rfl, decToNat_natDec]
    simp
    omega
  · have hi : i = ((i.toNat : ℕ) : ℤ) := by omega
    rw [hi, intDec_eq_natDec, decToInt_natDec]

theorem intDec_tokenChars (i : ℤ) : ∀ c ∈ intDec i, c ≠ ' ' := by
  intro c hc
  unfold intDec at hc
  by_cases h : i < 0
  · rw [if_pos h] at hc
    rcases List.mem_cons.mp hc with h1 | h2
    · subst h1; decide
    · exact isDigit_ne_space (natDec_digits _ c h2)
  · rw [if_neg h] at hc
    exact isDigit_ne_space (natDec_digits _ c hc)

theorem intDec_ne_nil (i : ℤ) : intDec i ≠ [] := by
  unfold intDec
  by_cases h : i < 0
  · rw [if_pos h]; simp
  · rw [if_neg h]; exact natDec_ne_nil _

/-! ## Tokenizer lemmas -/

theorem dropSpaces_cons_of {c : Char} (cs : List Char) (h : c ≠ ' ') :
    dropSpaces (c :: cs) = c :: cs := by
  simp [dropSpaces, List.dropWhile_cons, h]

theorem dropSpaces_space (cs : List Char) : dropSpaces (' ' :: cs) = dropSpaces cs := by
  simp [dropSpaces, List.dropWhile_cons]

theorem takeWhile_append_space (tok rest : List Char) (h : ∀ c ∈ tok, c ≠ ' ') :
    (tok ++ ' ' :: rest).takeWhile (fun c => ¬(c = ' ')) = tok := by
  induction tok with
  | nil => simp [List.takeWhile_cons]
  | cons c cs ih =>
    have hc : c ≠ ' ' := h c (by simp)
    have hcb : (decide ¬(c = ' ')) = true := decide_eq_true hc
    simp only [List.cons_append, List.takeWhile_cons, hcb, if_true]
    rw [ih (fun c hc' => h c (by simp [hc']))]

theorem dropWhile_append_space (tok rest : List Char) (h : ∀ c ∈ tok, c ≠ ' ') :
    (tok ++ ' ' :: rest).dropWhile (fun c => ¬(c = ' ')) = ' ' :: rest := by
  induction tok with
  | nil => simp [List.dropWhile_cons]
  | cons c cs ih =>
    have hc : c ≠ ' ' := h c (by simp)
    have hcb : (decide ¬(c = ' ')) = true := decide_eq_true hc
    simp only [List.cons_append, List.dropWhile_cons, hcb, if_true]
    exact ih (fun c hc' => h c (by simp [hc']))

theorem takeWhile_all (tok : List Char) (h : ∀ c ∈ tok, c ≠ ' ') :
    tok.takeWhile (fun c => ¬(c = ' ')) = tok := by
  induction tok with
  | nil => simp
  | cons c cs ih =>
    have hc : c ≠ ' ' := h c (by simp)
    have hcb : (decide ¬(c = ' ')) = true := decide_eq_true hc
    simp only [List.takeWhile_cons, hcb, if_true]
    rw [ih (fun c hc' => h c (by simp [hc']))]

theorem dropWhile_all (tok : List Char) (h : ∀ c ∈ tok, c ≠ ' ') :
    tok.dropWhile (fun c => ¬(c = ' ')) = [] := by
  induction tok with
  | nil => simp
  | cons c cs ih =>
    have hc : c ≠ ' ' := h c (by simp)
    have hcb : (decide ¬(c = ' ')) = true := decide_eq_true hc
    simp only [List.dropWhile_cons, hcb, if_true]
    exact ih (fun c hc' => h c (by simp [hc']))

theorem nextTok_token_space (tok rest : List Char) (hne : tok ≠ [])
    (h : ∀ c ∈ tok, c ≠ ' ') :
    nextTok (tok ++ ' ' :: rest) = some (tok, ' ' :: rest) := by
  obtain ⟨c, cs, hcs⟩ := List.exists_cons_of_ne_nil hne
  unfold nextTok
  rw [hcs, List.cons_append, dropSpaces_cons_of _ (by apply h; rw [hcs]; simp)]
  rw [← List.cons_append, ← hcs]
  rw [if_neg (by simp [hcs])]
  rw [takeWhile_append_space tok rest h, dropWhile_append_space tok rest h]

theorem nextTok_token_end (tok : List Char) (hne : tok ≠ [])
    (h : ∀ c ∈ tok, c ≠ ' ') :
    nextTok tok = some (tok, []) := by
  obtain ⟨c, cs, hcs⟩ := List.exists_cons_of_ne_nil hne
  unfold nextTok
  rw [hcs, dropSpaces_cons_of _ (by apply h; rw [hcs]; simp), ← hcs]
  rw [if_neg (by simp [hcs])]
  rw [takeWhile_all tok h, dropWhile_all tok h]

theorem nextTok_space (cs : List Char) : nextTok (' ' :: cs) = nextTok cs := by
  unfold nextTok
  rw [dropSpaces_space]

/-! ## Parsing the lines `Write` produces -/

theorem parse2Ints_pair (a b : ℤ) :
    parse2Ints (String.mk (intDec a ++ ' ' :: intDec b)) = some (a, b) := by
  unfold parse2Ints
  dsimp only
  rw [nextTok_token_space _ _ (intDec_ne_nil a) (intDec_tokenChars a)]
  simp only [Option.bind_eq_bind, Option.some_bind]
  rw [decToInt_intDec a]
  simp only [Option.some_bind]
  rw [nextTok_space, nextTok_token_end _ (intDec_ne_nil b) (intDec_tokenChars b)]
  simp only [Option.some_bind]
  rw [decToInt_intDec b]
  rfl

theorem parse2Ints_dims (nx ny : ℕ) :
    parse2Ints (String.mk (natDec nx ++ ' ' :: natDec ny)) = some ((nx : ℤ), (ny : ℤ)) := by
  rw [← intDec_eq_natDec nx, ← intDec_eq_natDec ny, parse2Ints_pair]

theorem parse3Ints_triple (a b c : ℤ) :
    parse3Ints (String.mk (intDec a ++ ' ' :: (intDec b ++ ' ' :: intDec c))) =
      some (a, b, c) := by
  unfold parse3Ints
  dsimp only
  rw [nextTok_token_space _ _ (intDec_ne_nil a) (intDec_tokenChars a)]
  simp only [Option.bind_eq_bind, Option.some_bind]
  rw [decToInt_intDec a]
  simp only [Option.some_bind]
  rw [nextTok_space, nextTok_token_space _ _ (intDec_ne_nil b) (intDec_tokenChars b)]
  simp only [Option.some_bind]
  rw [decToInt_intDec b]
  simp only [Option.some_bind]
  rw [nextTok_space, nextTok_token_end _ (intDec_ne_nil c) (intDec_tokenChars c)]
  simp only [Option.some_bind]
  rw [decToInt_intDec c]
  rfl

theorem parse3Ints_coordLine (p : Point) (lab : ℤ) :
    parse3Ints (coordLine p lab) =
      some (roundQ (qmul p.x (qofNat 10)), roundQ (qmul p.y (qofNat 10)), lab) := by
  unfold coordLine
  exact parse3Ints_triple _ _ _

theorem lineToPoint_coordLine (p : Point) (lab : ℤ) :
    lineToPoint (coordLine p lab) = rtPoint p := by
  unfold lineToPoint rtPoint
  rw [parse3Ints_coordLine]

/-! ## The row and grid readers -/

theorem readRow_append (ls extra : List String)
    (h : ∀ l ∈ ls, (parse3Ints l).isSome) :
    readRow ls.length (ls ++ extra) = .ok (ls.map lineToPoint, extra) := by
  induction ls with
  | nil => rfl
  | cons l t ih =>
    obtain ⟨⟨x, y, lab⟩, hxy⟩ := Option.isSome_iff_exists.mp (h l (by simp))
    have ht := ih (fun l hl => h l (by simp [hl]))
    simp only [List.length_cons, List.cons_append, List.append_eq, readRow, hxy, ht,
      List.map_cons, lineToPoint]

theorem readGrid_flatten (rows : List (List String)) (nx : ℕ) (extra : List String)
    (hlen : ∀ r ∈ rows, r.length = nx)
    (hp : ∀ r ∈ rows, ∀ l ∈ r, (parse3Ints l).isSome) :
    readGrid rows.length nx (rows.flatten ++ extra) =
      .ok (rows.map (List.map lineToPoint), extra) := by
  induction rows with
  | nil => rfl
  | cons r rows ih =>
    have hr : r.length = nx := hlen r (by simp)
    have hrow := readRow_append r (rows.flatten ++ extra) (hp r (by simp))
    rw [hr] at hrow
    have ht := ih (fun r hr => hlen r (by simp [hr])) (fun r hr => hp r (by simp [hr]))
    simp only [List.length_cons, List.flatten_cons, List.append_assoc, List.append_eq,
      readGrid, hrow, ht, List.map_cons]

theorem forall₂_length_eq {α β : Type} (n : ℕ) :
    ∀ (ps : List (List α)) (ls : List (List β)), (∀ r ∈ ps, r.length = n) →
      (∀ r ∈ ls, r.length = n) → ps.length = ls.length →
      List.Forall₂ (fun (a : List α) (b : List β) => a.length = b.length) ps ls := by
  intro ps
  induction ps with
  | nil =>
    intro ls _ _ h
    cases ls with
    | nil => exact List.Forall₂.nil
    | cons b bs => simp at h
  | cons a as ih =>
    intro ls hp hl h
    cases ls with
    | nil => simp at h
    | cons b bs =>
      refine List.Forall₂.cons ?_ (ih bs (fun r hr => hp r (by simp [hr]))
        (fun r hr => hl r (by simp [hr])) (by simpa using h))
      rw [hp a (by simp), hl b (by simp)]

theorem flatten_zip {α β : Type} (ps : List (List α)) (ls : List (List β))
    (h : List.Forall₂ (fun (a : List α) (b : List β) => a.length = b.length) ps ls) :
    ps.flatten.zip ls.flatten = ((ps.zip ls).map fun rl => rl.1.zip rl.2).flatten := by
  induction h with
  | nil => rfl
  | cons hab hrest ih =>
    simp only [List.flatten_cons, List.zip_cons_cons, List.map_cons]
    rw [List.zip_append hab, ih]

theorem meshWrite_coordRows (m : Mesh) (hWF : meshWF m) :
    (m.pts.flatten.zip m.labels.flatten).map (fun pl => coordLine pl.1 pl.2) =
      ((m.pts.zip m.labels).map fun rl =>
        (rl.1.zip rl.2).map fun pl => coordLine pl.1 pl.2).flatten := by
  obtain ⟨hpy, hpx, hly, hlx⟩ := hWF
  rw [flatten_zip _ _ (forall₂_length_eq m.nx _ _ hpx hlx (by rw [hpy, hly]))]
  rw [List.map_flatten, List.map_map]
  rfl

theorem rows_map_lineToPoint (m : Mesh) (hWF : meshWF m) :
    ((m.pts.zip m.labels).map fun rl =>
        (rl.1.zip rl.2).map fun pl => coordLine pl.1 pl.2).map (List.map lineToPoint) =
      m.pts.map (List.map rtPoint) := by
  obtain ⟨hpy, hpx, hly, hlx⟩ := hWF
  rw [List.map_map]
  have hrow : ∀ rl ∈ m.pts.zip m.labels,
      (List.map lineToPoint ∘ fun rl =>
        (rl.1.zip rl.2).map fun pl => coordLine pl.1 pl.2) rl = rl.1.map rtPoint := by
    intro rl hrl
    obtain ⟨h1, h2⟩ := List.of_mem_zip hrl
    simp only [Function.comp, List.map_map]
    have hpt : ∀ pl ∈ rl.1.zip rl.2,
        (lineToPoint ∘ fun pl => coordLine pl.1 pl.2) pl = (rtPoint ∘ Prod.fst) pl := by
      intro pl _
      exact lineToPoint_coordLine pl.1 pl.2
    rw [List.map_congr_left hpt, ← List.map_map]
    rw [List.map_fst_zip rl.1 rl.2 (by rw [hpx rl.1 h1, hlx rl.2 h2])]
  rw [List.map_congr_left hrow]
  have hfst : ∀ rl ∈ m.pts.zip m.labels,
      rl.1.map rtPoint = ((List.map rtPoint) ∘ Prod.fst) rl := fun rl _ => rfl
  rw [List.map_congr_left hfst, ← List.map_map]
  rw [List.map_fst_zip m.pts m.labels (by rw [hpy, hly])]

theorem readMesh_cons (dl : String) (rest : List String) (nx ny : ℤ)
    (hd : parse2Ints dl = some (nx, ny)) (h4 : ¬(nx < 4 ∨ ny < 4)) :
    ReadMesh ("M2" :: dl :: rest) =
      match readGrid ny.toNat nx.toNat rest with
      | .error e => .error e
      | .ok (sl, _) => .ok (MeshFromPoints sl) := by
  unfold ReadMesh
  dsimp only
  rw [if_neg (by decide), hd]
  dsimp only
  rw [if_neg h4]

theorem readRow_ok_flat (n : ℕ) :
    ∀ (ls : List String), n ≤ ls.length → (∀ l ∈ ls, (parse3Ints l).isSome) →
      readRow n ls = .ok ((ls.take n).map lineToPoint, ls.drop n) := by
  induction n with
  | zero => intro ls _ _; simp [readRow]
  | succ n ih =>
    intro ls h hp
    cases ls with
    | nil => simp at h
    | cons l t =>
      obtain ⟨⟨x, y, lab⟩, hxy⟩ := Option.isSome_iff_exists.mp (hp l (by simp))
      have ht := ih t (by simpa using h) (fun l hl => hp l (by simp [hl]))
      simp only [readRow, hxy, ht, List.take_succ_cons, List.map_cons,
        List.drop_succ_cons, lineToPoint]

theorem readGrid_ok_flat (j n : ℕ) :
    ∀ (ls : List String), n * j ≤ ls.length → (∀ l ∈ ls, (parse3Ints l).isSome) →
      ∃ sl, readGrid j n ls = .ok (sl, ls.drop (n * j)) := by
  induction j with
  | zero => intro ls _ _; exact ⟨[], by simp [readGrid]⟩
  | succ j ih =>
    intro ls h hp
    have hmul : n * (j + 1) = n * j + n := by ring
    rw [hmul] at h ⊢
    have hn : n ≤ ls.length := by omega
    have hrow := readRow_ok_flat n ls hn hp
    obtain ⟨sl, hsl⟩ := ih (ls.drop n)
      (by rw [List.length_drop]; omega)
      (fun l hl => hp l (List.mem_of_mem_drop hl))
    refine ⟨(ls.take n).map lineToPoint :: sl, ?_⟩
    simp only [readGrid, hrow, hsl, List.drop_drop]
    rw [Nat.add_comm n (n * j)]

theorem readRow_err (n : ℕ) :
    ∀ (ls : List String), ls.length < n → ∃ e, readRow n ls = .error e := by
  induction n with
  | zero => intro ls h; simp at h
  | succ n ih =>
    intro ls h
    cases ls with
    | nil => exact ⟨_, rfl⟩
    | cons l t =>
      rcases hxy : parse3Ints l with _ | ⟨⟨x, y, lab⟩⟩
      · exact ⟨"failed to parse line as x y label", by simp [readRow, hxy]⟩
      · obtain ⟨e, he⟩ := ih t (by simpa using h)
        exact ⟨e, by simp [readRow, hxy, he]⟩

theorem readGrid_err (j n : ℕ) :
    ∀ (ls : List String), 0 < j → ls.length < n * j →
      (∀ l ∈ ls, (parse3Ints l).isSome) → ∃ e, readGrid j n ls = .error e := by
  induction j with
  | zero => intro ls hj _ _; simp at hj
  | succ j ih =>
    intro ls _ h hp
    have hmul : n * (j + 1) = n * j + n := by ring
    rw [hmul] at h
    by_cases hle : n ≤ ls.length
    · have hrow := readRow_ok_flat n ls hle hp
      have hj' : 0 < j := by
        rcases Nat.eq_zero_or_pos j with hj0 | hj0
        · subst hj0; simp at h; omega
        · exact hj0
      obtain ⟨e, he⟩ := ih (ls.drop n) hj'
        (by rw [List.length_drop]; omega)
        (fun l hl => hp l (List.mem_of_mem_drop hl))
      exact ⟨e, by simp [readGrid, hrow, he]⟩
    · obtain ⟨e, he⟩ := readRow_err n ls (by omega)
      exact ⟨e, by simp [readGrid, he]⟩

/-! ## The write/read round trip -/

theorem rtPoint_x (p : Point) : (rtPoint p).x = (roundQ (p.x * 10) : ℚ) / 10 := by
  show qdiv (qofInt (roundQ (qmul p.x (qofNat 10)))) (qofNat 10) = _
  rw [qdiv_eq, qofInt_eq, qmul_eq, qofNat_eq]
  norm_num

theorem rtPoint_y (p : Point) : (rtPoint p).y = (roundQ (p.y * 10) : ℚ) / 10 := by
  show qdiv (qofInt (roundQ (qmul p.y (qofNat 10)))) (qofNat 10) = _
  rw [qdiv_eq, qofInt_eq, qmul_eq, qofNat_eq]
  norm_num

theorem ptClose_rtPoint (p : Point) : ptClose p (rtPoint p) := by
  constructor
  · rw [rtPoint_x]
    have h := abs_roundQ_sub_le (p.x * 10)
    have key : p.x - (roundQ (p.x * 10) : ℚ) / 10 =
        (p.x * 10 - (roundQ (p.x * 10) : ℚ)) / 10 := by ring
    rw [key, abs_div, abs_of_pos (by norm_num : (0:ℚ) < 10)]
    linarith
  · rw [rtPoint_y]
    have h := abs_roundQ_sub_le (p.y * 10)
    have key : p.y - (roundQ (p.y * 10) : ℚ) / 10 =
        (p.y * 10 - (roundQ (p.y * 10) : ℚ)) / 10 := by ring
    rw [key, abs_div, abs_of_pos (by norm_num : (0:ℚ) < 10)]
    linarith

theorem forall₂_map_self {α β : Type} (R : α → β → Prop) (f : α → β) :
    ∀ (l : List α), (∀ a, R a (f a)) → List.Forall₂ R l (l.map f) := by
  intro l h
  induction l with
  | nil => exact List.Forall₂.nil
  | cons a t ih => exact List.Forall₂.cons (h a) ih

/-- Claim C7: serializing a well-formed mesh with `Write` and reading
the result back with `ReadMesh` succeeds, and every coordinate of the
mesh read back differs from the original by at most 0.05 (= 1/20) units
on each axis. -/
theorem claim_C7 (m : Mesh) (hWF : meshWF m) (hx : 4 ≤ m.nx) (hy : 4 ≤ m.ny) :
    ∃ r, ReadMesh (MeshWrite m) = .ok r ∧
      List.Forall₂ (List.Forall₂ ptClose) m.pts r.pts := by
  obtain ⟨hpy, hpx, hly, hlx⟩ := hWF
  refine ⟨MeshFromPoints (m.pts.map (List.map rtPoint)), ?_, ?_⟩
  · unfold MeshWrite
    rw [List.cons_append, List.cons_append]
    rw [readMesh_cons _ _ _ _ (parse2Ints_dims m.nx m.ny) (by omega)]
    rw [meshWrite_coordRows m ⟨hpy, hpx, hly, hlx⟩]
    rw [Int.toNat_natCast, Int.toNat_natCast]
    have hlen2 : ∀ r ∈ (m.pts.zip m.labels).map fun rl =>
        (rl.1.zip rl.2).map fun pl => coordLine pl.1 pl.2, r.length = m.nx := by
      intro r hr
      obtain ⟨rl, hrl, hreq⟩ := List.mem_map.mp hr
      obtain ⟨h1, h2⟩ := List.of_mem_zip hrl
      rw [← hreq]
      simp [hpx rl.1 h1, hlx rl.2 h2]
    have hp2 : ∀ r ∈ (m.pts.zip m.labels).map fun rl =>
        (rl.1.zip rl.2).map fun pl => coordLine pl.1 pl.2,
        ∀ l ∈ r, (parse3Ints l).isSome := by
      intro r hr l hl
      obtain ⟨rl, hrl, hreq⟩ := List.mem_map.mp hr
      rw [← hreq] at hl
      obtain ⟨pl, _, hpl⟩ := List.mem_map.mp hl
      rw [← hpl, parse3Ints_coordLine]
      rfl
    have hrows : ((m.pts.zip m.labels).map fun rl =>
        (rl.1.zip rl.2).map fun pl => coordLine pl.1 pl.2).length = m.ny := by
      simp [hpy, hly]
    have hgrid := readGrid_flatten _ m.nx (sisLines m) hlen2 hp2
    rw [hrows, rows_map_lineToPoint m ⟨hpy, hpx, hly, hlx⟩] at hgrid
    rw [hgrid]
  · show List.Forall₂ _ m.pts (m.pts.map (List.map rtPoint))
    exact forall₂_map_self _ _ m.pts
      (fun r => forall₂_map_self _ _ r ptClose_rtPoint)

theorem claim_C7_witness :
    (meshWF c9Mesh ∧ 4 ≤ c9Mesh.nx ∧ 4 ≤ c9Mesh.ny) ∧
    ∃ r, ReadMesh (MeshWrite c9Mesh) = .ok r ∧
      List.Forall₂ (List.Forall₂ ptClose) c9Mesh.pts r.pts :=
  ⟨⟨by decide, by decide, by decide⟩,
   claim_C7 c9Mesh (by decide) (by decide) (by decide)⟩

/-- Claim C8: a mesh file truncated strictly before its last required
coordinate line (fewer lines than the header, the dimension line and
nx*ny coordinate lines) makes `ReadMesh` fail with an error, while a
file holding exactly the required lines, with the optional trailing
subimage block absent, is read successfully. -/
theorem claim_C8 (nx ny : ℕ) (dl : String) (coordLines extra : List String)
    (hx : 4 ≤ nx) (hy : 4 ≤ ny)
    (hd : parse2Ints dl = some ((nx : ℤ), (ny : ℤ)))
    (hlen : coordLines.length = nx * ny)
    (hp : ∀ l ∈ coordLines, (parse3Ints l).isSome) :
    (∀ k, k < 2 + nx * ny →
      exOk (ReadMesh (("M2" :: dl :: (coordLines ++ extra)).take k)) = false) ∧
    exOk (ReadMesh ("M2" :: dl :: coordLines)) = true := by
  constructor
  · intro k hk
    rcases k with _ | (_ | k)
    · rfl
    · rfl
    · rw [List.take_succ_cons, List.take_succ_cons]
      have hkle : k ≤ coordLines.length := by
        rw [hlen]; linarith
      rw [List.take_append_of_le_length hkle]
      rw [readMesh_cons _ _ _ _ hd (by omega), Int.toNat_natCast, Int.toNat_natCast]
      have hlt : (coordLines.take k).length < nx * ny := by
        rw [List.length_take, min_eq_left hkle]
        linarith
      obtain ⟨e, he⟩ := readGrid_err ny nx (coordLines.take k) (by omega) hlt
        (fun l hl => hp l (List.mem_of_mem_take hl))
      rw [he]
      rfl
  · rw [readMesh_cons _ _ _ _ hd (by omega), Int.toNat_natCast, Int.toNat_natCast]
    obtain ⟨sl, hsl⟩ := readGrid_ok_flat ny nx coordLines (le_of_eq hlen.symm) hp
    rw [hsl]
    rfl

theorem claim_C8_witness :
    (parse2Ints "4 4" = some ((4 : ℤ), (4 : ℤ)) ∧
      (List.replicate 16 "0 0 0").length = 4 * 4) ∧
    (∀ k, k < 2 + 4 * 4 →
      exOk (ReadMesh (("M2" :: "4 4" ::
        (List.replicate 16 "0 0 0" ++ ([] : List String))).take k)) = false) ∧
    exOk (ReadMesh ("M2" :: "4 4" :: List.replicate 16 "0 0 0")) = true :=
  ⟨⟨by decide, by decide⟩,
   claim_C8 4 4 "4 4" (List.replicate 16 "0 0 0") [] (by decide) (by decide)
     (by decide) (by decide) (by decide)⟩

set_option maxRecDepth 10000 in
/-- Claim C9: writing the 5x4 mesh whose point at column c, row r is
(1.25*c, 1.75*r) emits the `M2` header, the `5 4` dimension line,
exactly the twenty coordinate lines (each coordinate multiplied by ten
and rounded, ties away from zero) in row-major order, and then the
bounding-box-derived subimage-information block. -/
theorem claim_C9 : MeshWrite c9Mesh =
    ["M2", "5 4",
     "0 0 0", "13 0 0", "25 0 0", "38 0 0", "50 0 0",
     "0 18 0", "13 18 0", "25 18 0", "38 18 0", "50 18 0",
     "0 35 0", "13 35 0", "25 35 0", "38 35 0", "50 35 0",
     "0 53 0", "13 53 0", "25 53 0", "38 53 0", "50 53 0",
     "<SIS>", "<orig>", "6 7", "</orig>",
     "<rect>", "0 0 5 6", "</rect>",
     "<eye>", "1.666667 1.750000", "</eye>",
     "<eye>", "3.333333 1.750000", "</eye>",
     "<eye>", "2.500000 3.500000", "</eye>",
     "</SIS>", "<resulting image size>", "6 7", "</resulting image size>",
     "<features>", "<name>", "feature 0", "</name>",
     "<name>", "feature 1", "</name>",
     "<name>", "feature 2", "</name>", "</features>"] := by
  decide

theorem claim_C5_witness :
    (meshWF cexMeshA ∧ meshWF cexMeshB ∧ meshCompatible cexMeshA cexMeshB) ∧
    (∃ r, InterpolateMeshes cexMeshA cexMeshB 0 = .ok r ∧ r.pts = cexMeshA.pts) ∧
    (∃ r, InterpolateMeshes cexMeshA cexMeshB 1 = .ok r ∧ r.pts = cexMeshB.pts) :=
  ⟨⟨by decide, by decide, by decide⟩,
   claim_C5_endpoints cexMeshA cexMeshB (by decide) (by decide) (by decide)⟩

end XmorphProof
